import Mathlib

/-
Verification development for the biomarker-analysis application core
(file src/src/App.js of the repository).  The JavaScript core is shallowly
embedded below: tabular parsing (parseCSV), the per-software adapters
(adaptPeaksStudioData, adaptProteomeDiscovererData and the three stub
adapters), the Venn overlap computation (generateVennDiagramData) and
the comparative CSV export (exportComparativeToCsv).

Modelling conventions:
* JavaScript numbers are modelled as rationals (ℚ).  All numeric strings
  occurring in the app's tabular data denote finite decimals, which ℚ
  represents exactly; parseFloat / parseInt are embedded as prefix parsers
  of decimal literals (with exponent part for parseFloat) defaulting to 0
  under the code's uniform `|| 0` coercion.  Non-finite specials
  ("Infinity", hexadecimal parseInt prefixes) do not occur in this data
  and are outside the model.
* A parsed row (JS object built by `rowObject[header] = value`) is an
  association list; assignment is last-wins, so lookup takes the last
  binding, and a missing key reads as the empty string (everywhere the
  code reads a possibly-missing field it either guards with truthiness,
  feeds parseFloat/parseInt `|| 0`, or compares for equality, for which
  `undefined` and `""` behave identically).
* JS `Set` objects are insertion-ordered deduplicated lists (dedupFirst).
* `Array.prototype.sort` with a consistent numeric comparator is a stable
  sort (ECMAScript 2019); with a total preorder the stable-sorted result
  is unique, so it is embedded as insertion sort.  A comparator that
  returns NaN is treated by ECMAScript SortCompare as +0, so a sort whose
  comparator is always NaN leaves the array in its original order.
* Characters are compared as code points; the [A-Z], \d and \s character
  classes of the regexes are the ASCII classes, which is exact for the
  ASCII accession/description data this app processes.
-/

deriving instance DecidableEq for Except

namespace BioApp

/-! ## JavaScript string primitives -/

/-- The whitespace class used by JS `trim`, `\s` (ASCII part). -/
def isJsWS (c : Char) : Bool :=
  c = ' ' || c = '\t' || c = '\n' || c = '\r' || c = '\x0b' || c = '\x0c'

/-- JS `String.prototype.trim` on a character list. -/
def jsTrimL (cs : List Char) : List Char :=
  ((cs.dropWhile isJsWS).reverse.dropWhile isJsWS).reverse

/-- JS `String.prototype.trim`. -/
def jsTrim (s : String) : String := ⟨jsTrimL s.data⟩

/-- JS `.replace(/"/g, '')`: remove every double quote. -/
def stripQuotesL (cs : List Char) : List Char := cs.filter (fun c => c ≠ '"')

/-- JS `.replace(/,/g, '.')`: replace every comma by a dot. -/
def commasToDotsL (cs : List Char) : List Char :=
  cs.map (fun c => if c = ',' then '.' else c)

/-- Prepend a character to the first field of a split result. -/
def consHead (c : Char) : List (List Char) → List (List Char)
  | [] => [[c]]
  | l :: ls => (c :: l) :: ls

/-- JS `String.prototype.split` with a one-character separator. -/
def splitOnChar (d : Char) : List Char → List (List Char)
  | [] => [[]]
  | c :: rest => if c = d then [] :: splitOnChar d rest else consHead c (splitOnChar d rest)

/-- JS `text.split(/\r?\n/)`: split on `\n`, consuming a directly preceding
`\r` with it.  A `\r` not followed by `\n` is kept (the regex requires the
`\n`). -/
def splitLines : List Char → List (List Char)
  | [] => [[]]
  | [c] => if c = '\n' then [[], []] else [[c]]
  | c :: c2 :: rest =>
    if c = '\n' then [] :: splitLines (c2 :: rest)
    else if c = '\r' ∧ c2 = '\n' then [] :: splitLines rest
    else consHead c (splitLines (c2 :: rest))

/-- JS `Array.prototype.join(sep)` over strings. -/
def joinSep (sep : String) : List String → String
  | [] => ""
  | [s] => s
  | s :: rest => s ++ sep ++ joinSep sep rest

/-- Substring test (`String.prototype.includes`) on character lists:
`containsSubL pat cs` holds iff `pat` occurs contiguously in `cs`. -/
def isPrefixOfL : List Char → List Char → Bool
  | [], _ => true
  | _ :: _, [] => false
  | a :: as, b :: bs => a = b && isPrefixOfL as bs

/-- Substring occurrence scan. -/
def containsSubL (pat : List Char) : List Char → Bool
  | [] => isPrefixOfL pat []
  | c :: rest => isPrefixOfL pat (c :: rest) || containsSubL pat rest

/-- JS `s.includes(pat)`. -/
def strContains (s pat : String) : Bool := containsSubL pat.data s.data

/-- JS `Set` constructed from a list: insertion-ordered deduplication
(first occurrence kept), with an accumulator of already-seen elements. -/
def dedupFirstAux {α : Type} [DecidableEq α] (seen : List α) : List α → List α
  | [] => []
  | a :: as =>
    if seen.contains a then dedupFirstAux seen as
    else a :: dedupFirstAux (a :: seen) as

/-- Insertion-ordered deduplication (the element list of a JS `Set`). -/
def dedupFirst {α : Type} [DecidableEq α] (l : List α) : List α :=
  dedupFirstAux [] l

/-! ## JavaScript numeric coercions -/

/-- Numeric value of an ASCII digit (table form; callers only apply it to
characters satisfying `Char.isDigit`). -/
def digitVal (c : Char) : ℕ :=
  if c = '1' then 1 else if c = '2' then 2 else if c = '3' then 3
  else if c = '4' then 4 else if c = '5' then 5 else if c = '6' then 6
  else if c = '7' then 7 else if c = '8' then 8 else if c = '9' then 9 else 0

/-- Take the longest digit run from the front. -/
def takeDigits : List Char → List ℕ × List Char
  | [] => ([], [])
  | c :: rest =>
    if c.isDigit then
      match takeDigits rest with
      | (ds, r) => (digitVal c :: ds, r)
    else ([], c :: rest)

/-- Decimal value of a digit run. -/
def natOfDigits (ds : List ℕ) : ℕ := ds.foldl (fun a d => 10 * a + d) 0

/-- Exponent part of a JS float literal (after the `e`/`E`): optional sign
and a digit run; an incomplete exponent contributes 0 (JS parseFloat
ignores a trailing `e` without digits). -/
def parseExpPart (cs : List Char) : ℤ :=
  let (sg, cs1) : ℤ × List Char :=
    match cs with
    | '+' :: r => (1, r)
    | '-' :: r => (-1, r)
    | r => (1, r)
  match takeDigits cs1 with
  | ([], _) => 0
  | (ds, _) => sg * (natOfDigits ds : ℤ)

/-- JS `parseFloat`: skip whitespace, optional sign, digits with optional
fraction, optional exponent; `none` when no digits were found (NaN). -/
def jsParseFloat? (s : String) : Option ℚ :=
  let cs := s.data.dropWhile isJsWS
  let (sg, cs1) : ℚ × List Char :=
    match cs with
    | '+' :: r => (1, r)
    | '-' :: r => (-1, r)
    | r => (1, r)
  let (ids, cs2) := takeDigits cs1
  let (fds, cs3) :=
    match cs2 with
    | '.' :: r => takeDigits r
    | r => ([], r)
  if ids = [] ∧ fds = [] then none
  else
    let mant : ℚ := (natOfDigits ids : ℚ) + (natOfDigits fds : ℚ) / (10 : ℚ) ^ fds.length
    let e : ℤ :=
      match cs3 with
      | 'e' :: r => parseExpPart r
      | 'E' :: r => parseExpPart r
      | _ => 0
    some (sg * mant * (10 : ℚ) ^ e)

/-- The code's uniform `parseFloat(x) || 0` coercion (NaN becomes 0; the
value 0 is unchanged by `|| 0`). -/
def jsParseFloatD (s : String) : ℚ := (jsParseFloat? s).getD 0

/-- JS `parseInt` in radix 10: skip whitespace, optional sign, digit run;
`none` when no digits (NaN). -/
def jsParseInt? (s : String) : Option ℤ :=
  let cs := s.data.dropWhile isJsWS
  let (sg, cs1) : ℤ × List Char :=
    match cs with
    | '+' :: r => (1, r)
    | '-' :: r => (-1, r)
    | r => (1, r)
  match takeDigits cs1 with
  | ([], _) => none
  | (ds, _) => some (sg * (natOfDigits ds : ℤ))

/-- The code's `parseInt(x) || 0` coercion. -/
def jsParseIntD (s : String) : ℤ := (jsParseInt? s).getD 0

/-! ## The pathogenic accession regex

`const pathogenicPattern = /(-VAR_)|(-[A-Z]\d+[A-Z])/;`
`pathogenicPattern.test(s)` holds iff `s` contains `-VAR_` or a substring
`-` uppercase digit⁺ uppercase.  Because the digit and uppercase classes
are disjoint, the backtracking regex is equivalent to the deterministic
scan below. -/

/-- After `-U d`, accept more digits then one uppercase letter. -/
def digitsThenUpper : List Char → Bool
  | [] => false
  | c :: rest => if c.isDigit then digitsThenUpper rest else c.isUpper

/-- Does the suffix right after a `-` start a match of either alternative? -/
def pathogenicTail (cs : List Char) : Bool :=
  (match cs with
   | 'V' :: 'A' :: 'R' :: '_' :: _ => true
   | _ => false) ||
  (match cs with
   | u :: d :: rest => u.isUpper && d.isDigit && digitsThenUpper rest
   | _ => false)

/-- Scan for a match anywhere in the string. -/
def pathogenicScan : List Char → Bool
  | [] => false
  | c :: rest => (c = '-' && pathogenicTail rest) || pathogenicScan rest

/-- `pathogenicPattern.test`. -/
def pathogenicPattern (s : String) : Bool := pathogenicScan s.data

/-! ## Tabular parser (`parseCSV`, src/src/App.js lines 540-606)

The FileReader plumbing is I/O glue; the embedded function takes the file
text.  Rows are association lists from header to cell string. -/

/-- A parsed row: header → raw string value, in column order. -/
abbrev Row := List (String × String)

/-- Object property read: last assignment wins, missing key reads as `""`
(see the modelling conventions above). -/
def rowGet (r : Row) (k : String) : String :=
  ((r.reverse.find? (fun p => p.1 = k)).map (fun p => p.2)).getD ""

/-- `Object.keys(row).includes(k)`. -/
def rowHasKey (r : Row) (k : String) : Bool := (r.map (fun p => p.1)).contains k

/-- Keys of the first row of a table (`Object.keys(data[0])`). -/
def firstRowKeys (rows : List Row) : List String :=
  ((rows.head?).getD []).map (fun p => p.1)

/-- Delimiter detection (lines 561-576): default comma; if the header line
contains a tab, count all three candidates and pick tab when it outnumbers
both others, else semicolon when it outnumbers comma; with no tab, pick
semicolon as soon as the header contains one. -/
def detectDelimiter (header : List Char) : Char :=
  if header.contains '\t' then
    let commaCount := header.count ','
    let semicolonCount := header.count ';'
    let tabCount := header.count '\t'
    if tabCount > max commaCount semicolonCount then '\t'
    else if semicolonCount > commaCount then ';'
    else ','
  else if header.contains ';' then ';'
  else ','

/-- Header cell: trim, then strip all double quotes. -/
def headerCell (cs : List Char) : String := ⟨stripQuotesL (jsTrimL cs)⟩

/-- Data cell: trim, strip all double quotes, then replace every comma by
a dot (line 593-594, applied to every cell of every row). -/
def dataCell (cs : List Char) : String := ⟨commasToDotsL (stripQuotesL (jsTrimL cs))⟩

/-- The tabular parser core (lines 551-601): split into lines, drop blank
lines, detect the delimiter on the first remaining line, read it as the
header, and turn each later line with the right cell count into a row
object (rows with a mismatched cell count are skipped). -/
def parseCSV (text : String) : List Row :=
  let lines := (splitLines text.data).filter (fun r => jsTrimL r ≠ [])
  match lines with
  | [] => []
  | header :: dataLines =>
    let delim := detectDelimiter header
    let headers := (splitOnChar delim header).map headerCell
    dataLines.filterMap (fun line =>
      let values := splitOnChar delim line
      if values.length = headers.length then
        some (headers.zip (values.map (fun v => dataCell v)))
      else none)

/-! ## Canonical result records

One record shape is shared by the adapters; the Peaks Studio adapter fills
`uniquePeptidesCount` with `none` when the accession has no unique-flagged
peptide (the JS reads `.size` of an `Array` fallback there, which is
`undefined`), and only the Proteome Discoverer adapter fills `pdScore`. -/

structure FinalRecord where
  proteinAccession : String
  description : String
  averageAbundance : ℚ
  totalPeptides : ℤ
  uniquePeptidesCount : Option ℤ
  proteinsInGroup : ℤ
  isUniqueGroup : Bool
  uniquePeptidesList : String
  pdScore : Option ℚ
deriving DecidableEq

/-- The value an adapter returns on success. -/
structure AnalysisResult where
  analysisResults : List FinalRecord
  totalPeptidesCount : ℕ
  totalProteinsCount : ℕ
  normalizationFactor : ℚ
deriving DecidableEq

/-- The `(a, b) => b['Average Abundance'] - a['Average Abundance']` sort:
a stable sort under a consistent total numeric comparator has a unique
result, embedded as insertion sort in descending abundance order. -/
def sortByAbundanceDesc (l : List FinalRecord) : List FinalRecord :=
  List.insertionSort (fun a b => b.averageAbundance ≤ a.averageAbundance) l

/-! ## Peaks Studio adapter (`adaptPeaksStudioData`, lines 613-723) -/

def requiredPeptidesHeaders : List String :=
  ["Protein Accession", "Protein Group", "Unique", "Peptide", "Area IBIS_DDA_1", "-10lgP"]

def requiredProteinsHeaders : List String := ["Accession", "Description"]

/-- `required.filter(h => !data.length || !Object.keys(data[0]).includes(h))`:
with an empty table every required header counts as missing. -/
def missingHeaders (required : List String) (rows : List Row) : List String :=
  required.filter (fun h => rows.isEmpty || !(firstRowKeys rows).contains h)

/-- The proteins `Map` keyed by the `Accession` cell; `Map.set` is
last-wins, so lookup returns the last protein row with that accession. -/
def lookupProtein (proteins : List Row) (acc : String) : Option Row :=
  proteins.reverse.find? (fun p => rowGet p "Accession" == acc)

/-- One joined (merged) peptide row: the peptide's own fields plus the
description/accession attached from the protein match, with the numeric
fields coerced. -/
structure MergedRow where
  proteinAccession : String
  proteinGroup : String
  uniqueFlag : String
  peptideSeq : String
  description : String
  accession : String
  area : ℚ
  score : ℚ
deriving DecidableEq

/-- Step 1 (lines 639-648), one peptide row: join it with its protein row;
an unmatched accession yields empty description and accession. -/
def peaksMergeRow (proteins : List Row) (p : Row) : MergedRow :=
  let base : MergedRow :=
    { proteinAccession := rowGet p "Protein Accession",
      proteinGroup := rowGet p "Protein Group",
      uniqueFlag := rowGet p "Unique",
      peptideSeq := rowGet p "Peptide",
      description := "", accession := "",
      area := jsParseFloatD (rowGet p "Area IBIS_DDA_1"),
      score := jsParseFloatD (rowGet p "-10lgP") }
  match lookupProtein proteins (rowGet p "Protein Accession") with
  | some pr => { base with description := rowGet pr "Description", accession := rowGet pr "Accession" }
  | none => base

/-- Step 1 (lines 639-648): the joined (merged) table. -/
def peaksMerged (peptides proteins : List Row) : List MergedRow :=
  peptides.map (fun p => peaksMergeRow proteins p)

/-- Step 2 (line 651): sum of the coerced area field over all joined rows. -/
def peaksTotalArea (peptides proteins : List Row) : ℚ :=
  ((peaksMerged peptides proteins).map (fun m => m.area)).sum

/-- Step 2 (line 652): `totalArea > 0 ? 1000000 / totalArea : 1`. -/
def peaksNormFactor (peptides proteins : List Row) : ℚ :=
  if 0 < peaksTotalArea peptides proteins then 1000000 / peaksTotalArea peptides proteins else 1

/-- Step 2 (lines 654-657): scale every row's area by the factor. -/
def peaksNormalized (peptides proteins : List Row) : List MergedRow :=
  (peaksMerged peptides proteins).map
    (fun m => { m with area := m.area * peaksNormFactor peptides proteins })

/-- Step 3 (lines 660-665): the set of accessions of a protein group. -/
def groupAccessions (data : List MergedRow) (g : String) : List String :=
  dedupFirst ((data.filter (fun d => d.proteinGroup == g)).map (fun d => d.proteinAccession))

/-- Step 3 (lines 667-673): the set of peptide sequences flagged unique
for an accession. -/
def uniquePeptidesFor (data : List MergedRow) (acc : String) : List String :=
  dedupFirst (((data.filter (fun d => d.uniqueFlag == "Y" && d.proteinAccession == acc)).map
    (fun d => d.peptideSeq)))

/-- A merged row enriched with the step-3 per-row fields (lines 675-680). -/
structure ProcessedRow where
  base : MergedRow
  isUniqueGroup : Bool
  uniquePeptidesList : String
  uniquePeptidesCount : Option ℕ
deriving DecidableEq

/-- Lines 675-680.  The `# Unique Peptides` field is `undefined` (here
`none`) when the accession is absent from the unique-peptides map, because
the JS fallback `[]` is an `Array`, whose `.size` is `undefined`. -/
def peaksProcessed (peptides proteins : List Row) : List ProcessedRow :=
  let nd := peaksNormalized peptides proteins
  nd.map (fun d =>
    let ups := uniquePeptidesFor nd d.proteinAccession
    { base := d,
      isUniqueGroup := (groupAccessions nd d.proteinGroup).length == 1,
      uniquePeptidesList := joinSep "; " ups,
      uniquePeptidesCount := if ups.isEmpty then none else some ups.length })

/-- Step 4 (lines 684-688): per protein group keep the row with the
strictly highest score; on ties the first-seen row wins; a new group is
appended (JS `Map` insertion order, `set` on an existing key keeps its
position). -/
def updateRepList : List (String × ProcessedRow) → ProcessedRow → List (String × ProcessedRow)
  | [], item => [(item.base.proteinGroup, item)]
  | (g, cur) :: rest, item =>
    if g = item.base.proteinGroup then
      if cur.base.score < item.base.score then (g, item) :: rest else (g, cur) :: rest
    else (g, cur) :: updateRepList rest item

/-- Step 4 (line 690): the representative rows (`uniqueProteins`). -/
def peaksRepresentatives (peptides proteins : List Row) : List ProcessedRow :=
  ((peaksProcessed peptides proteins).foldl updateRepList []).map (fun e => e.2)

/-- Step 5 (lines 693-696): keep representatives whose (truthy) accession
matches the pathogenic pattern and whose (truthy) description contains
`PATHOGENIC_VARIANT`. -/
def peaksPathogenicVariants (peptides proteins : List Row) : List ProcessedRow :=
  (peaksRepresentatives peptides proteins).filter (fun p =>
    (p.base.proteinAccession != "" && pathogenicPattern p.base.proteinAccession) &&
    (p.base.description != "" && strContains p.base.description "PATHOGENIC_VARIANT"))

/-- Step 6 (lines 699-714): derive the output record of one qualifying
representative. -/
def peaksFinalRecord (processed : List ProcessedRow) (nd : List MergedRow)
    (variant : ProcessedRow) : FinalRecord :=
  let peps := processed.filter (fun p => p.base.proteinAccession == variant.base.proteinAccession)
  let totalPeptides := peps.length
  let avg : ℚ :=
    if 0 < totalPeptides then ((peps.map (fun p => p.base.area)).sum) / (totalPeptides : ℚ) else 0
  { proteinAccession := variant.base.proteinAccession,
    description := variant.base.description,
    averageAbundance := avg,
    totalPeptides := (totalPeptides : ℤ),
    uniquePeptidesCount := variant.uniquePeptidesCount.map (fun n => (n : ℤ)),
    proteinsInGroup := ((groupAccessions nd variant.base.proteinGroup).length : ℤ),
    isUniqueGroup := variant.isUniqueGroup,
    uniquePeptidesList := variant.uniquePeptidesList,
    pdScore := none }

/-- The Peaks Studio adapter (lines 613-723). -/
def adaptPeaksStudioData (peptidesData proteinsData : List Row) : Except String AnalysisResult :=
  let missingPeptidesHeaders := missingHeaders requiredPeptidesHeaders peptidesData
  let missingProteinsHeaders := missingHeaders requiredProteinsHeaders proteinsData
  if missingPeptidesHeaders ≠ [] then
    .error ("Missing required headers in Peptides File for Peaks Studio: " ++
      joinSep ", " missingPeptidesHeaders)
  else if missingProteinsHeaders ≠ [] then
    .error ("Missing required headers in Proteins File for Peaks Studio: " ++
      joinSep ", " missingProteinsHeaders)
  else
    let nd := peaksNormalized peptidesData proteinsData
    let finalResults := sortByAbundanceDesc
      ((peaksPathogenicVariants peptidesData proteinsData).map
        (peaksFinalRecord (peaksProcessed peptidesData proteinsData) nd))
    .ok { analysisResults := finalResults,
          totalPeptidesCount := peptidesData.length,
          totalProteinsCount := (peaksRepresentatives peptidesData proteinsData).length,
          normalizationFactor := peaksNormFactor peptidesData proteinsData }

/-! ## Proteome Discoverer adapter (`adaptProteomeDiscovererData`, lines 735-891) -/

/-- Header normalization (line 749): drop all whitespace, lowercase. -/
def normalizeHeader (h : String) : String :=
  ⟨(h.data.filter (fun c => !(isJsWS c))).map Char.toLower⟩

/-- Robust header finder (lines 752-763): the first actual header whose
normalization equals the required header's normalization. -/
def findExactHeader (actualHeadersList : List String) (requiredHeaderRaw : String) : Option String :=
  actualHeadersList.find? (fun a => normalizeHeader a == normalizeHeader requiredHeaderRaw)

/-- Rendering of `actualHeaders.map(normalizeHeader).join(', ')` inside the
bracketed part of the error messages. -/
def pdHeadersListStr (hs : List String) : String :=
  "[" ++ joinSep ", " (hs.map normalizeHeader) ++ "]"

/-- The validation error messages of lines 791-799, in their fixed check
order, paired with the raw name of the missing column.  Note the line-795
slip reproduced here: the `# Peptides` message prints the peptides table's
normalized headers although the column is required of the proteins table. -/
def pdFirstMissing (peptidesData proteinsData : List Row) : Option (String × String) :=
  let aph := firstRowKeys peptidesData
  let aprh := firstRowKeys proteinsData
  if (findExactHeader aph "Sequence").isNone then
    some ("Sequence", "Missing 'Sequence' header in Peptides File for Proteome Discoverer. Searched for normalized 'sequence'. Actual normalized headers: " ++ pdHeadersListStr aph)
  else if (findExactHeader aph "Master Protein Accessions").isNone then
    some ("Master Protein Accessions", "Missing 'Master Protein Accessions' header in Peptides File for Proteome Discoverer. Searched for normalized 'masterproteinaccessions'. Actual normalized headers: " ++ pdHeadersListStr aph)
  else if (findExactHeader aprh "Accession").isNone then
    some ("Accession", "Missing 'Accession' header in Proteins File for Proteome Discoverer. Searched for normalized 'accession'. Actual normalized headers: " ++ pdHeadersListStr aprh)
  else if (findExactHeader aprh "Description").isNone then
    some ("Description", "Missing 'Description' header in Proteins File for Proteome Discoverer. Searched for normalized 'description'. Actual normalized headers: " ++ pdHeadersListStr aprh)
  else if (findExactHeader aprh "# Peptides").isNone then
    some ("# Peptides", "Missing '# Peptides' header in Proteins File for Proteome Discoverer. Searched for normalized '#peptides'. Actual normalized headers: " ++ pdHeadersListStr aph)
  else if (findExactHeader aprh "# Unique Peptides").isNone then
    some ("# Unique Peptides", "Missing '# Unique Peptides' header in Proteins File for Proteome Discoverer. Searched for normalized '#uniquepeptides'. Actual normalized headers: " ++ pdHeadersListStr aprh)
  else if (findExactHeader aprh "# Protein Groups").isNone then
    some ("# Protein Groups", "Missing '# Protein Groups' header in Proteins File for Proteome Discoverer. Searched for normalized '#proteingroups'. Actual normalized headers: " ++ pdHeadersListStr aprh)
  else if (findExactHeader aprh "Score Sequest HT: Sequest HT").isNone then
    some ("Score Sequest HT: Sequest HT", "Missing 'Score Sequest HT: Sequest HT' header in Proteins File for Proteome Discoverer. Searched for normalized 'scoresequestht:sequestht'. Actual normalized headers: " ++ pdHeadersListStr aprh)
  else if (findExactHeader aprh "Sum PEP Score").isNone then
    some ("Sum PEP Score", "Missing 'Sum PEP Score' header in Proteins File for Proteome Discoverer, needed for abundance calculation. Searched for normalized 'sumpepscore'. Actual normalized headers: " ++ pdHeadersListStr aprh)
  else none

/-- The nine resolved actual header names; only consumed on the branch
where every `findExactHeader` succeeded, so the `getD ""` defaults are
never observable. -/
structure PdHeaders where
  seqH : String
  mastH : String
  accH : String
  descH : String
  totalH : String
  uniqH : String
  grpH : String
  scoreH : String
  abundH : String

def pdHeadersOf (peptidesData proteinsData : List Row) : PdHeaders :=
  let aph := firstRowKeys peptidesData
  let aprh := firstRowKeys proteinsData
  { seqH := (findExactHeader aph "Sequence").getD "",
    mastH := (findExactHeader aph "Master Protein Accessions").getD "",
    accH := (findExactHeader aprh "Accession").getD "",
    descH := (findExactHeader aprh "Description").getD "",
    totalH := (findExactHeader aprh "# Peptides").getD "",
    uniqH := (findExactHeader aprh "# Unique Peptides").getD "",
    grpH := (findExactHeader aprh "# Protein Groups").getD "",
    scoreH := (findExactHeader aprh "Score Sequest HT: Sequest HT").getD "",
    abundH := (findExactHeader aprh "Sum PEP Score").getD "" }

/-- `proteinsMap.has(acc)`: some protein row carries that accession. -/
def pdProteinsHas (proteinsData : List Row) (accH : String) (acc : String) : Bool :=
  proteinsData.any (fun p => rowGet p accH == acc)

/-- Lines 807-819 read back at one accession (lines 827): the peptides
associated with accession `pa`, one occurrence per (truthy, known)
appearance of `pa` in a peptide's semicolon-separated, trimmed
`Master Protein Accessions` list, in peptide order. -/
def pdAssociatedPeptides (peptidesData : List Row) (mastH : String)
    (has : String → Bool) (pa : String) : List Row :=
  if pa != "" && has pa then
    peptidesData.flatMap (fun pep =>
      List.replicate
        (((splitOnChar ';' (rowGet pep mastH).data).map (fun cs => jsTrim ⟨cs⟩)).count pa) pep)
  else []

/-- Lines 823-881 for one protein row: build its output record when the
revised pathogenic filter passes (pathogenic accession pattern AND a
description containing `PATHOGENIC_VARIANT` or `ClinicalSignificance:`). -/
def pdRecordOf (peptidesData proteinsData : List Row) (H : PdHeaders) (p : Row) :
    Option FinalRecord :=
  let pa := rowGet p H.accH
  let desc := rowGet p H.descH
  let assoc := pdAssociatedPeptides peptidesData H.mastH (pdProteinsHas proteinsData H.accH) pa
  let isUG := rowGet p H.grpH == "1"
  let upSeqs := if isUG then dedupFirst (assoc.map (fun pep => rowGet pep H.seqH)) else []
  if pathogenicPattern pa &&
     (desc != "" && (strContains desc "PATHOGENIC_VARIANT" || strContains desc "ClinicalSignificance:")) then
    some { proteinAccession := pa,
           description := desc,
           averageAbundance := jsParseFloatD (rowGet p H.abundH),
           totalPeptides := jsParseIntD (rowGet p H.totalH),
           uniquePeptidesCount := some (jsParseIntD (rowGet p H.uniqH)),
           proteinsInGroup := jsParseIntD (rowGet p H.grpH),
           isUniqueGroup := isUG,
           uniquePeptidesList := joinSep "; " upSeqs,
           pdScore := some (jsParseFloatD (rowGet p H.scoreH)) }
  else none

/-- Line 883: `.sort((a, b) => b['Average Abundance'] - a['Average Abundanc e'])`.
The second property name is misspelled, so `a['Average Abundanc e']` is
`undefined` and the comparator always returns `NaN`; ECMAScript
`SortCompare` maps NaN to `+0` and the sort is stable (ES2019), so the
call leaves the array in its original order. -/
def pdSortBroken (l : List FinalRecord) : List FinalRecord := l

/-- The Proteome Discoverer adapter (lines 735-891). -/
def adaptProteomeDiscovererData (peptidesData proteinsData : List Row) :
    Except String AnalysisResult :=
  if peptidesData.isEmpty then
    .error "Peptides File for Proteome Discoverer is empty or contains no data rows."
  else if proteinsData.isEmpty then
    .error "Proteins File for Proteome Discoverer is empty or contains no data rows."
  else
    match pdFirstMissing peptidesData proteinsData with
    | some m => .error m.2
    | none =>
      let H := pdHeadersOf peptidesData proteinsData
      .ok { analysisResults :=
              pdSortBroken (proteinsData.filterMap (pdRecordOf peptidesData proteinsData H)),
            totalPeptidesCount := peptidesData.length,
            totalProteinsCount := proteinsData.length,
            normalizationFactor := 1 }

/-! ## Stub adapters (lines 725-733, 893-911)

Each logs a console warning and returns a fabricated successful empty
result; none of them throws. -/

def emptyAnalysisResult : AnalysisResult :=
  { analysisResults := [], totalPeptidesCount := 0, totalProteinsCount := 0,
    normalizationFactor := 1 }

def adaptMaxQuantData (_peptidesRawData _proteinsRawData : List Row) :
    Except String AnalysisResult := .ok emptyAnalysisResult

def adaptSpectronautData (_dataRaw : List Row) : Except String AnalysisResult :=
  .ok emptyAnalysisResult

def adaptDiannData (_dataRaw : List Row) : Except String AnalysisResult :=
  .ok emptyAnalysisResult

/-! ## Venn overlap computation (`generateVennDiagramData`, lines 327-397) -/

/-- What the overlap computation reads of a processed sample. -/
structure VennSample where
  id : ℕ
  name : String
  analysisResults : List FinalRecord

/-- An intermediate labelled set `{ label, size, proteins }`. -/
structure VennSet where
  label : String
  size : ℕ
  proteins : List String
deriving DecidableEq

/-- A d3-venn datum `{ sets, size, proteins }`. -/
structure VennEntry where
  sets : List String
  size : ℕ
  proteins : List String
deriving DecidableEq

/-- The function's return value `{ sets, overlaps }`. -/
structure VennData where
  sets : List VennSet
  overlaps : List VennEntry

/-- The label-uniquifying while loop (lines 347-353): try `base`,
`base (2)`, `base (3)`, … until unused.  The candidates are pairwise
distinct strings, so among the first `used.length + 1` candidates at least
one is fresh; with that much fuel the fuelled version never reaches its
exhaustion branch and equals the unbounded loop. -/
def freshLabelAux (used : List String) (base : String) : ℕ → ℕ → String
  | 0, n => if n = 1 then base else base ++ " (" ++ toString n ++ ")"
  | fuel + 1, n =>
    let cand := if n = 1 then base else base ++ " (" ++ toString n ++ ")"
    if used.contains cand then freshLabelAux used base fuel (n + 1) else cand

def freshLabel (used : List String) (base : String) : String :=
  freshLabelAux used base (used.length + 1) 1

/-- `new Set(sample.analysisResults.map(r => r['Protein Accession']))`. -/
def vennProteinSet (s : VennSample) : List String :=
  dedupFirst (s.analysisResults.map (fun r => r.proteinAccession))

/-- Lines 341-358: label every selected sample uniquely (empty trimmed
names fall back to `Sample <id>`) and attach its accession set. -/
def vennLabeledSets : List VennSample → List String → List VennSet
  | [], _ => []
  | s :: rest, used =>
    let trimmed := jsTrim s.name
    let base := if trimmed != "" then trimmed else "Sample " ++ toString s.id
    let lbl := freshLabel used base
    let ps := vennProteinSet s
    { label := lbl, size := ps.length, proteins := ps } :: vennLabeledSets rest (used ++ [lbl])

/-- The ordered pairs produced by the nested `i < j` loops. -/
def pairsOf {α : Type} : List α → List (α × α)
  | [] => []
  | x :: rest => rest.map (fun y => (x, y)) ++ pairsOf rest

/-- `new Set([...a].filter(x => b.has(x)))`. -/
def setIntersect (a b : List String) : List String :=
  dedupFirst (a.filter (fun x => b.contains x))

/-- Lines 363-365: the individual-set entries. -/
def vennSingles (pSets : List VennSet) : List VennEntry :=
  pSets.map (fun p => { sets := [p.label], size := p.size, proteins := p.proteins })

/-- Lines 368-375: the pairwise-intersection entries of the nested loops. -/
def vennPairEntry (pr : VennSet × VennSet) : VennEntry :=
  let inter := setIntersect pr.1.proteins pr.2.proteins
  { sets := [pr.1.label, pr.2.label], size := inter.length, proteins := inter }

def vennPairs (pSets : List VennSet) : List VennEntry :=
  (pairsOf pSets).map vennPairEntry

/-- Lines 378-387: with exactly three sets, the triple intersection. -/
def vennTriple : List VennSet → List VennEntry
  | [s1, s2, s3] =>
    let i12 := setIntersect s1.proteins s2.proteins
    let i123 := setIntersect i12 s3.proteins
    [{ sets := [s1.label, s2.label, s3.label], size := i123.length, proteins := i123 }]
  | _ => []

/-- Lines 389-394: the final shape filter; in this embedding its only
non-vacuous conjunct is that every set label is a non-empty string. -/
def vennShapeFilter (l : List VennEntry) : List VennEntry :=
  l.filter (fun d => d.sets.all (fun s => s != ""))

/-- Lines 327-397.  Guard: outside 2-3 selected ids the function clears
the diagram and returns empty data.  Otherwise it emits the individual
sets, every pairwise intersection, and (with exactly three intermediate
sets) the triple intersection, passed through the shape filter. -/
def vennSelectedSets (selectedVennSampleIds : List ℕ)
    (processedSamples : List VennSample) : List VennSet :=
  vennLabeledSets (processedSamples.filter (fun s => selectedVennSampleIds.contains s.id)) []

def generateVennDiagramData (selectedVennSampleIds : List ℕ)
    (processedSamples : List VennSample) : VennData :=
  if selectedVennSampleIds.length < 2 ∨ 3 < selectedVennSampleIds.length then
    { sets := [], overlaps := [] }
  else
    let pSets := vennSelectedSets selectedVennSampleIds processedSamples
    { sets := pSets,
      overlaps := vennShapeFilter (vennSingles pSets ++ vennPairs pSets ++ vennTriple pSets) }

/-! ## Comparative CSV export (`exportComparativeToCsv`, lines 1066-1101) -/

/-- A comparative-table cell is a string or a number (the peptide-count
columns are numbers; everything else, including the `toFixed(2)` abundance
strings and the `N/A` sentinel, is a string). -/
inductive Cell where
  | str (s : String)
  | num (n : ℤ)
deriving DecidableEq

/-- Lines 1077-1082: string cells containing the delimiter or a quote are
quote-wrapped with internal quotes doubled; other cells pass through. -/
def renderCell : Cell → String
  | .str s =>
    if s.data.contains ',' || s.data.contains '"' then
      "\"" ++ ⟨s.data.flatMap (fun c => if c = '"' then ['"', '"'] else [c])⟩ ++ "\""
    else s
  | .num n => toString n

/-- Lines 1066-1086 (the Blob/anchor download glue is excluded I/O):
`none` models the early return on an empty table. -/
def exportComparativeToCsv (headers : List String) (rows : List (List Cell)) : Option String :=
  if rows.isEmpty then none
  else
    some (joinSep "\n" (joinSep "," headers :: rows.map (fun r => joinSep "," (r.map renderCell))))

/-! ## General lemmas about the string and set primitives -/

theorem isPrefixOfL_refl (l : List Char) : isPrefixOfL l l = true := by
  induction l with
  | nil => rfl
  | cons c cs ih => simp [isPrefixOfL, ih]

theorem isPrefixOfL_append (p a b : List Char) (h : isPrefixOfL p a = true) :
    isPrefixOfL p (a ++ b) = true := by
  induction p generalizing a with
  | nil => rfl
  | cons c cs ih =>
    cases a with
    | nil => simp [isPrefixOfL] at h
    | cons x xs =>
      simp only [isPrefixOfL, Bool.and_eq_true] at h ⊢
      exact ⟨h.1, ih xs h.2⟩

theorem containsSubL_of_isPrefixOfL (p s : List Char) (h : isPrefixOfL p s = true) :
    containsSubL p s = true := by
  cases s with
  | nil =>
    cases p with
    | nil => rfl
    | cons c cs => simp [isPrefixOfL] at h
  | cons x xs => simp [containsSubL, h]

theorem containsSubL_append_right (p a b : List Char) (h : containsSubL p b = true) :
    containsSubL p (a ++ b) = true := by
  induction a with
  | nil => simpa using h
  | cons x xs ih => simp [containsSubL, ih]

theorem containsSubL_append_left (p a b : List Char) (h : containsSubL p a = true) :
    containsSubL p (a ++ b) = true := by
  induction a with
  | nil =>
    cases p with
    | nil =>
      cases b with
      | nil => rfl
      | cons y ys => simp [containsSubL, isPrefixOfL]
    | cons c cs => simp [containsSubL, isPrefixOfL] at h
  | cons x xs ih =>
    simp only [containsSubL, Bool.or_eq_true] at h
    rcases h with h | h
    · simp only [List.cons_append, containsSubL, Bool.or_eq_true]
      exact Or.inl (isPrefixOfL_append _ _ _ h)
    · simp only [List.cons_append, containsSubL, Bool.or_eq_true]
      exact Or.inr (ih h)

theorem strContains_append_left (a b pat : String) (h : strContains a pat = true) :
    strContains (a ++ b) pat = true := by
  unfold strContains at h ⊢
  rw [String.data_append]
  exact containsSubL_append_left _ _ _ h

theorem strContains_append_right (a b pat : String) (h : strContains b pat = true) :
    strContains (a ++ b) pat = true := by
  unfold strContains at h ⊢
  rw [String.data_append]
  exact containsSubL_append_right _ _ _ h

theorem strContains_self (s : String) : strContains s s = true :=
  containsSubL_of_isPrefixOfL _ _ (isPrefixOfL_refl s.data)

theorem strContains_joinSep (sep : String) (l : List String) (h : String) (hm : h ∈ l) :
    strContains (joinSep sep l) h = true := by
  induction l with
  | nil => simp at hm
  | cons s rest ih =>
    rcases List.mem_cons.mp hm with rfl | hmem
    · cases rest with
      | nil => exact strContains_self h
      | cons r rs =>
        show strContains (h ++ sep ++ joinSep sep (r :: rs)) h = true
        exact strContains_append_left _ _ _ (strContains_append_left _ _ _ (strContains_self h))
    · cases rest with
      | nil => simp at hmem
      | cons r rs =>
        show strContains (s ++ sep ++ joinSep sep (r :: rs)) h = true
        exact strContains_append_right _ _ _ (ih hmem)

theorem mem_dedupFirstAux {α : Type} [DecidableEq α] (x : α) :
    ∀ (l seen : List α), x ∈ dedupFirstAux seen l ↔ x ∈ l ∧ ¬ x ∈ seen := by
  intro l
  induction l with
  | nil => intro seen; simp [dedupFirstAux]
  | cons a as ih =>
    intro seen
    by_cases hs : seen.contains a
    · have ha : a ∈ seen := by simpa using hs
      simp only [dedupFirstAux, hs, if_true, ih, List.mem_cons]
      constructor
      · rintro ⟨hx, hns⟩; exact ⟨Or.inr hx, hns⟩
      · rintro ⟨rfl | hx, hns⟩
        · exact absurd ha hns
        · exact ⟨hx, hns⟩
    · have ha : ¬ a ∈ seen := by simpa using hs
      simp only [dedupFirstAux, hs, Bool.false_eq_true, if_false, List.mem_cons, ih]
      constructor
      · rintro (rfl | ⟨hx, hns⟩)
        · exact ⟨Or.inl rfl, ha⟩
        · exact ⟨Or.inr hx, fun hxs => hns (Or.inr hxs)⟩
      · rintro ⟨rfl | hx, hns⟩
        · exact Or.inl rfl
        · by_cases hxa : x = a
          · exact Or.inl hxa
          · refine Or.inr ⟨hx, fun hc => ?_⟩
            rcases hc with h1 | h2
            · exact hxa h1
            · exact hns h2

theorem mem_dedupFirst {α : Type} [DecidableEq α] (x : α) (l : List α) :
    x ∈ dedupFirst l ↔ x ∈ l := by
  simp [dedupFirst, mem_dedupFirstAux]

theorem mem_setIntersect (x : String) (a b : List String) :
    x ∈ setIntersect a b ↔ x ∈ a ∧ x ∈ b := by
  simp [setIntersect, mem_dedupFirst, List.mem_filter]

theorem comma_not_mem_commasToDotsL (cs : List Char) : ¬ (',' ∈ commasToDotsL cs) := by
  intro h
  rcases List.mem_map.mp h with ⟨x, _, hx⟩
  by_cases hc : x = ','
  · simp [hc] at hx
  · rw [if_neg hc] at hx
    exact hc hx

/-! ## Claim C4: the stub adapters -/

/-- C4: the MaxQuant, Spectronaut and DIA-NN adapter variants do NOT fail
with an UnsupportedFormatError; on every input each returns a successful
result whose analysisResults is empty and whose counts are zero (the
behaviour the claim says never happens).  This theorem documents the
divergence by evaluating the code on arbitrary inputs. -/
theorem C4_stub_adapters_return_empty_success (pep prot d : List Row) :
    adaptMaxQuantData pep prot = .ok emptyAnalysisResult ∧
    adaptSpectronautData d = .ok emptyAnalysisResult ∧
    adaptDiannData d = .ok emptyAnalysisResult ∧
    emptyAnalysisResult.analysisResults = [] ∧
    emptyAnalysisResult.totalPeptidesCount = 0 ∧
    emptyAnalysisResult.totalProteinsCount = 0 :=
  ⟨rfl, rfl, rfl, rfl, rfl, rfl⟩

/-! ## Claim C6: delimiter detection -/

/-- The delimiter-selection rule exactly as the specification sentence
states it, for comparison with the implemented `detectDelimiter`: count
tab, comma and semicolon in the header; tab when its count exceeds both
others, otherwise semicolon when its count exceeds the comma count,
otherwise comma. -/
def claimedDelimiterRule (header : List Char) : Char :=
  let tabCount := header.count '\t'
  let commaCount := header.count ','
  let semicolonCount := header.count ';'
  if tabCount > commaCount ∧ tabCount > semicolonCount then '\t'
  else if semicolonCount > commaCount then ';'
  else ','

/-- C6 counterexample: on the header `a,b;c` (no tab, one semicolon, one
comma) the claimed counting rule yields comma, but the code picks
semicolon purely because one is present. -/
theorem C6_counterexample :
    detectDelimiter "a,b;c".data = ';' ∧ claimedDelimiterRule "a,b;c".data = ',' ∧
    detectDelimiter "a,b;c".data ≠ claimedDelimiterRule "a,b;c".data := by
  decide

/-- C6 amended: the counting rule of the claim is applied only when the
header contains a tab; with no tab the parser picks semicolon iff the
header contains any semicolon (regardless of the comma count), else
comma. -/
theorem C6_amended (header : String) :
    (header.data.contains '\t' = true →
      detectDelimiter header.data = claimedDelimiterRule header.data) ∧
    (header.data.contains '\t' = false →
      detectDelimiter header.data = (if 0 < header.data.count ';' then ';' else ',')) := by
  constructor
  · intro ht
    simp only [detectDelimiter, ht, if_true, claimedDelimiterRule, gt_iff_lt, max_lt_iff]
  · intro ht
    unfold detectDelimiter
    have h1 : ¬ (header.data.contains '\t' = true) := by
      intro hcontra
      rw [ht] at hcontra
      cases hcontra
    rw [if_neg h1]
    by_cases hs : ';' ∈ header.data
    · have hc : header.data.contains ';' = true := by simpa using hs
      rw [if_pos hc, if_pos (List.count_pos_iff.mpr hs)]
    · have hc : ¬ (header.data.contains ';' = true) := by simpa using hs
      have hz : header.data.count ';' = 0 := by
        rcases Nat.eq_zero_or_pos (header.data.count ';') with h0 | hp
        · exact h0
        · exact absurd (List.count_pos_iff.mp hp) hs
      rw [if_neg hc, if_neg (by simp [hz])]

/-- C6 witness: the amended rule evaluated on a tab header and on a
tabless header. -/
theorem C6_amended_witness :
    detectDelimiter "a\tb".data = '\t' ∧ detectDelimiter "x;y,z,w".data = ';' := by
  constructor
  · have h := (C6_amended "a\tb").1 (by decide)
    rw [h]; decide
  · have h := (C6_amended "x;y,z,w").2 (by decide)
    rw [h]; decide

/-! ## Claim C7: unconditional comma normalization -/

/-- C7 counterexample: `parseCSV` takes no numeric-locale request — on the
tab-delimited input the free-text cell `hello,world` comes back with its
comma replaced by a dot, so cell values do not keep their commas. -/
theorem C7_counterexample :
    parseCSV "A\tB\nx\thello,world" = [[("A", "x"), ("B", "hello.world")]] ∧
    dataCell "hello,world".data ≠ "hello,world" := by
  decide

/-- C7 amended: the parser has no normalization switch and replaces every
comma with a dot in every data cell unconditionally: no comma survives in
any output cell value. -/
theorem C7_amended (text : String) :
    ∀ row ∈ parseCSV text, ∀ kv ∈ row, ¬ (',' ∈ (kv.2 : String).data) := by
  intro row hrow kv hkv
  unfold parseCSV at hrow
  rcases hlines : (splitLines text.data).filter (fun r => jsTrimL r ≠ []) with _ | ⟨header, dataLines⟩
  · rw [hlines] at hrow
    simp at hrow
  · rw [hlines] at hrow
    simp only [List.mem_filterMap] at hrow
    rcases hrow with ⟨line, _, hsome⟩
    by_cases hlen :
        (splitOnChar (detectDelimiter header) line).length =
        ((splitOnChar (detectDelimiter header) header).map headerCell).length
    · rw [if_pos hlen] at hsome
      have hrow2 : row =
          ((splitOnChar (detectDelimiter header) header).map headerCell).zip
            ((splitOnChar (detectDelimiter header) line).map (fun v => dataCell v)) :=
        (Option.some.inj hsome).symm
      obtain ⟨k, v⟩ := kv
      rw [hrow2] at hkv
      have hv := (List.of_mem_zip hkv).2
      rcases List.mem_map.mp hv with ⟨cell, _, hcell⟩
      rw [← hcell]
      exact comma_not_mem_commasToDotsL _
    · rw [if_neg hlen] at hsome
      cases hsome

/-- C7 witness: the no-comma property applied to a concrete parsed cell. -/
theorem C7_amended_witness :
    [("A", "x"), ("B", "hello.world")] ∈ parseCSV "A\tB\nx\thello,world" ∧
    ¬ (',' ∈ ("hello.world" : String).data) := by
  refine ⟨by decide, ?_⟩
  exact C7_amended "A\tB\nx\thello,world" [("A", "x"), ("B", "hello.world")] (by decide)
    ("B", "hello.world") (by decide)

/-! ## Pipeline lemmas for the Peaks Studio adapter -/

theorem mem_updateRepList (acc : List (String × ProcessedRow)) (item : ProcessedRow) :
    ∀ e ∈ updateRepList acc item, e ∈ acc ∨ e.2 = item := by
  induction acc with
  | nil =>
    intro e he
    simp only [updateRepList, List.mem_singleton] at he
    exact Or.inr (by rw [he])
  | cons hd tl ih =>
    obtain ⟨g, cur⟩ := hd
    intro e he
    simp only [updateRepList] at he
    by_cases hg : g = item.base.proteinGroup
    · rw [if_pos hg] at he
      by_cases hsc : cur.base.score < item.base.score
      · rw [if_pos hsc] at he
        rcases List.mem_cons.mp he with rfl | hmem
        · exact Or.inr rfl
        · exact Or.inl (List.mem_cons_of_mem _ hmem)
      · rw [if_neg hsc] at he
        rcases List.mem_cons.mp he with rfl | hmem
        · exact Or.inl (List.mem_cons_self _ _)
        · exact Or.inl (List.mem_cons_of_mem _ hmem)
    · rw [if_neg hg] at he
      rcases List.mem_cons.mp he with rfl | hmem
      · exact Or.inl (List.mem_cons_self _ _)
      · rcases ih e hmem with h | h
        · exact Or.inl (List.mem_cons_of_mem _ h)
        · exact Or.inr h

theorem foldl_updateRepList_mem (l : List ProcessedRow) :
    ∀ acc, ∀ e ∈ l.foldl updateRepList acc, e ∈ acc ∨ e.2 ∈ l := by
  induction l with
  | nil =>
    intro acc e he
    exact Or.inl he
  | cons x xs ih =>
    intro acc e he
    rcases ih (updateRepList acc x) e he with h | h
    · rcases mem_updateRepList acc x e h with h2 | h2
      · exact Or.inl h2
      · exact Or.inr (h2 ▸ List.mem_cons_self _ _)
    · exact Or.inr (List.mem_cons_of_mem _ h)

theorem rep_mem_processed (pep prot : List Row) :
    ∀ v ∈ peaksRepresentatives pep prot, v ∈ peaksProcessed pep prot := by
  intro v hv
  rcases List.mem_map.mp hv with ⟨e, he, rfl⟩
  rcases foldl_updateRepList_mem _ [] e he with h | h
  · simp at h
  · exact h

theorem processed_base_mem (pep prot : List Row) :
    ∀ v ∈ peaksProcessed pep prot, v.base ∈ peaksNormalized pep prot := by
  intro v hv
  rcases List.mem_map.mp hv with ⟨d, hd, rfl⟩
  exact hd

theorem normalized_fields (pep prot : List Row) :
    ∀ n ∈ peaksNormalized pep prot, ∃ m ∈ peaksMerged pep prot,
      n.proteinAccession = m.proteinAccession ∧ n.description = m.description := by
  intro n hn
  rcases List.mem_map.mp hn with ⟨m, hm, rfl⟩
  exact ⟨m, hm, rfl, rfl⟩

theorem peaksMergeRow_proteinAccession (proteins : List Row) (p : Row) :
    (peaksMergeRow proteins p).proteinAccession = rowGet p "Protein Accession" := by
  unfold peaksMergeRow
  rcases lookupProtein proteins (rowGet p "Protein Accession") with _ | pr <;> rfl

theorem peaksMerged_unmatched_description (pep prot : List Row) :
    ∀ m ∈ peaksMerged pep prot,
      lookupProtein prot m.proteinAccession = none → m.description = "" := by
  intro m hm hnone
  rcases List.mem_map.mp hm with ⟨p, _, rfl⟩
  rw [peaksMergeRow_proteinAccession] at hnone
  unfold peaksMergeRow
  rw [hnone]

theorem adaptPeaks_ok_inversion (pep prot : List Row) (res : AnalysisResult)
    (h : adaptPeaksStudioData pep prot = .ok res) :
    res.analysisResults = sortByAbundanceDesc
      ((peaksPathogenicVariants pep prot).map
        (peaksFinalRecord (peaksProcessed pep prot) (peaksNormalized pep prot))) ∧
    res.normalizationFactor = peaksNormFactor pep prot := by
  unfold adaptPeaksStudioData at h
  by_cases h1 : missingHeaders requiredPeptidesHeaders pep ≠ []
  · rw [if_pos h1] at h
    cases h
  · rw [if_neg h1] at h
    by_cases h2 : missingHeaders requiredProteinsHeaders prot ≠ []
    · rw [if_pos h2] at h
      cases h
    · rw [if_neg h2] at h
      injection h with h3
      subst h3
      exact ⟨rfl, rfl⟩

theorem strContains_ne_empty (s pat : String) (hpat : pat.data ≠ []) :
    strContains s pat = true → s ≠ "" := by
  intro h hs
  subst hs
  simp only [strContains] at h
  cases hd : pat.data with
  | nil => exact hpat hd
  | cons c cs =>
    rw [hd] at h
    simp [containsSubL, isPrefixOfL] at h

theorem pathogenicPattern_ne_empty (s : String) (h : pathogenicPattern s = true) : s ≠ "" := by
  intro hs
  subst hs
  simp [pathogenicPattern, pathogenicScan] at h

/-- Membership in the pathogenic-variant filter, stated with the
claim-level conditions (the JS truthiness guards are implied: an empty
string neither matches the pattern nor contains the marker). -/
theorem mem_peaksPathogenicVariants (pep prot : List Row) (v : ProcessedRow) :
    v ∈ peaksPathogenicVariants pep prot ↔
      v ∈ peaksRepresentatives pep prot ∧
      pathogenicPattern v.base.proteinAccession = true ∧
      strContains v.base.description "PATHOGENIC_VARIANT" = true := by
  unfold peaksPathogenicVariants
  rw [List.mem_filter]
  constructor
  · rintro ⟨hmem, hcond⟩
    simp only [Bool.and_eq_true] at hcond
    exact ⟨hmem, hcond.1.2, hcond.2.2⟩
  · rintro ⟨hmem, hpat, hdesc⟩
    refine ⟨hmem, ?_⟩
    have ha : v.base.proteinAccession ≠ "" := pathogenicPattern_ne_empty _ hpat
    have hd : v.base.description ≠ "" := strContains_ne_empty _ _ (by decide) hdesc
    simp only [Bool.and_eq_true, bne_iff_ne]
    exact ⟨⟨ha, hpat⟩, hd, hdesc⟩

/-! ## Pipeline lemmas for the Proteome Discoverer adapter -/

theorem adaptPD_ok_inversion (pep prot : List Row) (res : AnalysisResult)
    (h : adaptProteomeDiscovererData pep prot = .ok res) :
    res.analysisResults = prot.filterMap (pdRecordOf pep prot (pdHeadersOf pep prot)) := by
  unfold adaptProteomeDiscovererData at h
  by_cases h1 : pep.isEmpty
  · rw [if_pos h1] at h
    cases h
  · rw [if_neg h1] at h
    by_cases h2 : prot.isEmpty
    · rw [if_pos h2] at h
      cases h
    · rw [if_neg h2] at h
      rcases hm : pdFirstMissing pep prot with _ | m
      · rw [hm] at h
        injection h with h3
        subst h3
        rfl
      · rw [hm] at h
        cases h

/-- The record built by `pdRecordOf`, characterized: `some` exactly under
the conjunctive pathogenic condition, with the accession and description
copied into the record. -/
theorem pdRecordOf_some_iff (pep prot : List Row) (H : PdHeaders) (p : Row) (r : FinalRecord) :
    pdRecordOf pep prot H p = some r →
      r.proteinAccession = rowGet p H.accH ∧ r.description = rowGet p H.descH ∧
      pathogenicPattern (rowGet p H.accH) = true ∧
      (strContains (rowGet p H.descH) "PATHOGENIC_VARIANT" = true ∨
       strContains (rowGet p H.descH) "ClinicalSignificance:" = true) := by
  intro h
  unfold pdRecordOf at h
  by_cases hc :
      (pathogenicPattern (rowGet p H.accH) &&
       (rowGet p H.descH != "" &&
        (strContains (rowGet p H.descH) "PATHOGENIC_VARIANT" ||
         strContains (rowGet p H.descH) "ClinicalSignificance:"))) = true
  · rw [if_pos hc] at h
    injection h with h2
    subst h2
    simp only [Bool.and_eq_true, Bool.or_eq_true] at hc
    exact ⟨rfl, rfl, hc.1, hc.2.2⟩
  · rw [if_neg hc] at h
    cases h

theorem pdRecordOf_some_of_conds (pep prot : List Row) (H : PdHeaders) (p : Row)
    (hpat : pathogenicPattern (rowGet p H.accH) = true)
    (hdesc : strContains (rowGet p H.descH) "PATHOGENIC_VARIANT" = true ∨
             strContains (rowGet p H.descH) "ClinicalSignificance:" = true) :
    ∃ r, pdRecordOf pep prot H p = some r ∧
      r.proteinAccession = rowGet p H.accH ∧ r.description = rowGet p H.descH := by
  have hne : rowGet p H.descH ≠ "" := by
    rcases hdesc with h | h
    · exact strContains_ne_empty _ _ (by decide) h
    · exact strContains_ne_empty _ _ (by decide) h
  have hc :
      (pathogenicPattern (rowGet p H.accH) &&
       (rowGet p H.descH != "" &&
        (strContains (rowGet p H.descH) "PATHOGENIC_VARIANT" ||
         strContains (rowGet p H.descH) "ClinicalSignificance:"))) = true := by
    simp only [Bool.and_eq_true, Bool.or_eq_true, bne_iff_ne]
    exact ⟨hpat, hne, hdesc⟩
  unfold pdRecordOf
  rw [if_pos hc]
  exact ⟨_, rfl, rfl, rfl⟩

/-! ## Claim C1: conjunctive pathogenic classification -/

/-- C1: in both implemented adapters a record enters `analysisResults`
exactly when its accession matches the pathogenic pattern AND its
description contains an explicit pathogenic marker token
(`PATHOGENIC_VARIANT` for Peaks Studio; `PATHOGENIC_VARIANT` or
`ClinicalSignificance:` for Proteome Discoverer): every emitted record
satisfies both conditions, and every representative (resp. protein row)
satisfying both yields an emitted record; one condition alone never
suffices. -/
theorem C1_classification_conjunction :
    (∀ pep prot res, adaptPeaksStudioData pep prot = .ok res →
      ((∀ r ∈ res.analysisResults,
          pathogenicPattern r.proteinAccession = true ∧
          strContains r.description "PATHOGENIC_VARIANT" = true) ∧
       (∀ v ∈ peaksRepresentatives pep prot,
          pathogenicPattern v.base.proteinAccession = true →
          strContains v.base.description "PATHOGENIC_VARIANT" = true →
          ∃ r ∈ res.analysisResults,
            r.proteinAccession = v.base.proteinAccession ∧
            r.description = v.base.description))) ∧
    (∀ pep prot res, adaptProteomeDiscovererData pep prot = .ok res →
      ((∀ r ∈ res.analysisResults,
          pathogenicPattern r.proteinAccession = true ∧
          (strContains r.description "PATHOGENIC_VARIANT" = true ∨
           strContains r.description "ClinicalSignificance:" = true)) ∧
       (∀ p ∈ prot,
          pathogenicPattern (rowGet p (pdHeadersOf pep prot).accH) = true →
          (strContains (rowGet p (pdHeadersOf pep prot).descH) "PATHOGENIC_VARIANT" = true ∨
           strContains (rowGet p (pdHeadersOf pep prot).descH) "ClinicalSignificance:" = true) →
          ∃ r ∈ res.analysisResults,
            r.proteinAccession = rowGet p (pdHeadersOf pep prot).accH ∧
            r.description = rowGet p (pdHeadersOf pep prot).descH))) := by
  constructor
  · intro pep prot res h
    have hres := (adaptPeaks_ok_inversion pep prot res h).1
    constructor
    · intro r hr
      rw [hres] at hr
      rw [sortByAbundanceDesc, List.mem_insertionSort] at hr
      rcases List.mem_map.mp hr with ⟨v, hv, rfl⟩
      have hc := (mem_peaksPathogenicVariants pep prot v).mp hv
      exact ⟨hc.2.1, hc.2.2⟩
    · intro v hv hpat hdesc
      have hmem : v ∈ peaksPathogenicVariants pep prot :=
        (mem_peaksPathogenicVariants pep prot v).mpr ⟨hv, hpat, hdesc⟩
      refine ⟨peaksFinalRecord (peaksProcessed pep prot) (peaksNormalized pep prot) v, ?_, rfl, rfl⟩
      rw [hres, sortByAbundanceDesc, List.mem_insertionSort]
      exact List.mem_map_of_mem _ hmem
  · intro pep prot res h
    have hres := adaptPD_ok_inversion pep prot res h
    constructor
    · intro r hr
      rw [hres] at hr
      rcases List.mem_filterMap.mp hr with ⟨p, _, hsome⟩
      have hc := pdRecordOf_some_iff pep prot (pdHeadersOf pep prot) p r hsome
      rw [hc.1, hc.2.1]
      exact ⟨hc.2.2.1, hc.2.2.2⟩
    · intro p hp hpat hdesc
      rcases pdRecordOf_some_of_conds pep prot (pdHeadersOf pep prot) p hpat hdesc with
        ⟨r, hsome, hacc, hdesc2⟩
      refine ⟨r, ?_, hacc, hdesc2⟩
      rw [hres]
      exact List.mem_filterMap.mpr ⟨p, hp, hsome⟩

/-! ## Concrete scenario inputs -/

/-- Scenario 1 of the spec: two peptide rows with areas 100 and 300. -/
def c2Peptides : List Row :=
  [[("Protein Accession", "P1-A123B"), ("Protein Group", "G1"), ("Unique", "Y"),
    ("Peptide", "PEPA"), ("Area IBIS_DDA_1", "100"), ("-10lgP", "50")],
   [("Protein Accession", "P1-A123B"), ("Protein Group", "G1"), ("Unique", "N"),
    ("Peptide", "PEPB"), ("Area IBIS_DDA_1", "300"), ("-10lgP", "40")]]

def c2Proteins : List Row :=
  [[("Accession", "P1-A123B"), ("Description", "xx PATHOGENIC_VARIANT yy")]]

/-- The Peaks Studio adapter's output on the scenario input. -/
def c2Result : AnalysisResult :=
  { analysisResults :=
      [{ proteinAccession := "P1-A123B", description := "xx PATHOGENIC_VARIANT yy",
         averageAbundance := 500000, totalPeptides := 2, uniquePeptidesCount := some 1,
         proteinsInGroup := 1, isUniqueGroup := true, uniquePeptidesList := "PEPA",
         pdScore := none }],
    totalPeptidesCount := 2, totalProteinsCount := 1, normalizationFactor := 2500 }

set_option maxHeartbeats 4000000 in
theorem c2_eval : adaptPeaksStudioData c2Peptides c2Proteins = .ok c2Result := by
  norm_num +decide [adaptPeaksStudioData, peaksNormFactor, peaksTotalArea, peaksMerged,
    peaksMergeRow, lookupProtein, rowGet, jsParseFloatD, jsParseFloat?, takeDigits, natOfDigits,
    isJsWS, digitVal, missingHeaders, requiredPeptidesHeaders, requiredProteinsHeaders,
    firstRowKeys, peaksNormalized, peaksProcessed, peaksRepresentatives,
    peaksPathogenicVariants, updateRepList, groupAccessions, uniquePeptidesFor, dedupFirst,
    dedupFirstAux, peaksFinalRecord, sortByAbundanceDesc, List.insertionSort,
    List.orderedInsert, pathogenicPattern, pathogenicScan, pathogenicTail, digitsThenUpper,
    strContains, containsSubL, isPrefixOfL, joinSep, c2Peptides, c2Proteins, c2Result]

set_option maxHeartbeats 2000000 in
theorem c2_merged_areas :
    (peaksMerged c2Peptides c2Proteins).map (fun m => m.area) = [100, 300] := by
  norm_num +decide [peaksMerged, peaksMergeRow, lookupProtein, rowGet, jsParseFloatD,
    jsParseFloat?, takeDigits, natOfDigits, isJsWS, digitVal, c2Peptides, c2Proteins]

set_option maxHeartbeats 2000000 in
theorem c2_normalized_areas :
    (peaksNormalized c2Peptides c2Proteins).map (fun m => m.area) = [250000, 750000] := by
  norm_num +decide [peaksNormalized, peaksNormFactor, peaksTotalArea, peaksMerged,
    peaksMergeRow, lookupProtein, rowGet, jsParseFloatD, jsParseFloat?, takeDigits,
    natOfDigits, isJsWS, digitVal, c2Peptides, c2Proteins]

/-! ## Claim C2: abundance normalization -/

/-- C2: on every successful Peaks Studio run, the returned normalization
factor is `1e6 / totalArea` when the summed raw area is strictly positive
and `1` otherwise, and every joined row's area is scaled by exactly that
factor; on the concrete scenario (raw areas 100 and 300) the factor is
2500 and the scaled areas are 250000 and 750000. -/
theorem C2_normalization_factor :
    (∀ pep prot res, adaptPeaksStudioData pep prot = .ok res →
      res.normalizationFactor =
        (if 0 < peaksTotalArea pep prot then 1000000 / peaksTotalArea pep prot else 1) ∧
      (peaksNormalized pep prot).map (fun m => m.area) =
        (peaksMerged pep prot).map (fun m => m.area * res.normalizationFactor)) ∧
    ((peaksMerged c2Peptides c2Proteins).map (fun m => m.area) = [100, 300] ∧
     adaptPeaksStudioData c2Peptides c2Proteins = .ok c2Result ∧
     c2Result.normalizationFactor = 2500 ∧
     (peaksNormalized c2Peptides c2Proteins).map (fun m => m.area) = [250000, 750000]) := by
  constructor
  · intro pep prot res h
    have hinv := adaptPeaks_ok_inversion pep prot res h
    refine ⟨by rw [hinv.2, peaksNormFactor], ?_⟩
    rw [hinv.2]
    unfold peaksNormalized
    rw [List.map_map]
    rfl
  · exact ⟨c2_merged_areas, c2_eval, rfl, c2_normalized_areas⟩

/-- C2 witness: the general normalization-factor law applied to the
concrete scenario run. -/
theorem C2_normalization_factor_witness :
    adaptPeaksStudioData c2Peptides c2Proteins = .ok c2Result ∧
    c2Result.normalizationFactor =
      (if 0 < peaksTotalArea c2Peptides c2Proteins then
        1000000 / peaksTotalArea c2Peptides c2Proteins else 1) :=
  ⟨c2_eval, (C2_normalization_factor.1 c2Peptides c2Proteins c2Result c2_eval).1⟩

/-! ## Claim C10: unmatched peptide rows never reach analysisResults -/

/-- C10: a joined peptide row whose accession matches no protein row has
an empty description, and consequently every record in a successful
Peaks Studio result has a matching protein row — an unmatched accession
can never appear in `analysisResults` even if it matches the pathogenic
pattern, because classification also requires the description marker. -/
theorem C10_unmatched_join_excluded :
    (∀ pep prot, ∀ m ∈ peaksMerged pep prot,
       lookupProtein prot m.proteinAccession = none → m.description = "") ∧
    (∀ pep prot res, adaptPeaksStudioData pep prot = .ok res →
       ∀ r ∈ res.analysisResults, (lookupProtein prot r.proteinAccession).isSome = true) := by
  refine ⟨peaksMerged_unmatched_description, ?_⟩
  intro pep prot res h r hr
  have hres := (adaptPeaks_ok_inversion pep prot res h).1
  rw [hres, sortByAbundanceDesc, List.mem_insertionSort] at hr
  rcases List.mem_map.mp hr with ⟨v, hv, rfl⟩
  have hc := (mem_peaksPathogenicVariants pep prot v).mp hv
  have hproc := rep_mem_processed pep prot v hc.1
  have hbase := processed_base_mem pep prot v hproc
  rcases normalized_fields pep prot v.base hbase with ⟨m, hm, hacc, hdesc⟩
  show (lookupProtein prot v.base.proteinAccession).isSome = true
  rcases hl : lookupProtein prot v.base.proteinAccession with _ | pr
  · exfalso
    have hmnone : lookupProtein prot m.proteinAccession = none := by
      rw [← hacc]
      exact hl
    have hempty := peaksMerged_unmatched_description pep prot m hm hmnone
    have hd := hc.2.2
    rw [hdesc, hempty] at hd
    exact strContains_ne_empty "" "PATHOGENIC_VARIANT" (by decide) hd rfl
  · rfl

/-- C10 witness: on the scenario input every emitted record's accession
has a protein-table match. -/
theorem C10_unmatched_join_excluded_witness :
    adaptPeaksStudioData c2Peptides c2Proteins = .ok c2Result ∧
    (lookupProtein c2Proteins "P1-A123B").isSome = true :=
  ⟨c2_eval,
    C10_unmatched_join_excluded.2 c2Peptides c2Proteins c2Result c2_eval
      { proteinAccession := "P1-A123B", description := "xx PATHOGENIC_VARIANT yy",
        averageAbundance := 500000, totalPeptides := 2, uniquePeptidesCount := some 1,
        proteinsInGroup := 1, isUniqueGroup := true, uniquePeptidesList := "PEPA",
        pdScore := none }
      (by rw [show c2Result.analysisResults =
          [{ proteinAccession := "P1-A123B", description := "xx PATHOGENIC_VARIANT yy",
             averageAbundance := 500000, totalPeptides := 2, uniquePeptidesCount := some 1,
             proteinsInGroup := 1, isUniqueGroup := true, uniquePeptidesList := "PEPA",
             pdScore := none }] from rfl]
          exact List.mem_singleton.mpr rfl)⟩

/-! ## Claim C5: result ordering -/

/-- The Proteome Discoverer input exhibiting the broken sort: two
qualifying protein rows with abundances 1 then 5 in table order. -/
def c5Peptides : List Row :=
  [[("Sequence", "AAA"), ("Master Protein Accessions", "P1-A1B")]]

def c5Proteins : List Row :=
  [[("Accession", "P1-A1B"), ("Description", "PATHOGENIC_VARIANT x"), ("# Peptides", "2"),
    ("# Unique Peptides", "1"), ("# Protein Groups", "1"),
    ("Score Sequest HT: Sequest HT", "10"), ("Sum PEP Score", "1")],
   [("Accession", "P2-C2D"), ("Description", "PATHOGENIC_VARIANT y"), ("# Peptides", "3"),
    ("# Unique Peptides", "2"), ("# Protein Groups", "2"),
    ("Score Sequest HT: Sequest HT", "11"), ("Sum PEP Score", "5")]]

/-- C5: the Proteome Discoverer adapter's sort comparator reads the
misspelled key `Average Abundanc e`, always returns NaN and therefore
never reorders; on this input the emitted average abundances are
`[1, 5]`, which is not descending — the code violates the claimed
ordering invariant. -/
theorem C5_pd_sort_is_broken :
    (adaptProteomeDiscovererData c5Peptides c5Proteins).map
      (fun res => res.analysisResults.map (fun r => r.averageAbundance)) =
      .ok [1, 5] ∧
    ¬ List.Sorted (· ≥ ·) [(1 : ℚ), 5] := by
  constructor
  · norm_num +decide [adaptProteomeDiscovererData, pdFirstMissing, findExactHeader,
      normalizeHeader, isJsWS, firstRowKeys, pdHeadersOf, pdRecordOf, pdAssociatedPeptides,
      pdProteinsHas, rowGet, jsParseFloatD, jsParseFloat?, jsParseIntD, jsParseInt?,
      takeDigits, natOfDigits, digitVal, pathogenicPattern, pathogenicScan, pathogenicTail,
      digitsThenUpper, strContains, containsSubL, isPrefixOfL, dedupFirst, dedupFirstAux,
      joinSep, splitOnChar, consHead, jsTrim, jsTrimL, pdSortBroken, Except.map,
      List.filterMap_cons, List.filterMap_nil, c5Peptides, c5Proteins]
  · intro hs
    have h15 := (List.sorted_cons.mp hs).1 5 (List.mem_singleton.mpr rfl)
    norm_num at h15

/-! ## Lemmas for the Venn overlap computation -/

theorem string_append_ne_empty_left (a b : String) (h : a ≠ "") : a ++ b ≠ "" := by
  intro hc
  apply h
  have hdata : a.data ++ b.data = [] := by
    rw [← String.data_append, hc]
  exact String.ext (List.append_eq_nil.mp hdata).1

theorem freshLabelAux_ne_empty (used : List String) (base : String) (hb : base ≠ "") :
    ∀ fuel n, freshLabelAux used base fuel n ≠ "" := by
  intro fuel
  induction fuel with
  | zero =>
    intro n
    by_cases hn : n = 1
    · simp only [freshLabelAux, hn, if_true]
      exact hb
    · simp only [freshLabelAux, hn, if_false]
      exact string_append_ne_empty_left _ _
        (string_append_ne_empty_left _ _ (string_append_ne_empty_left _ _ hb))
  | succ f ih =>
    intro n
    simp only [freshLabelAux]
    by_cases hu : List.contains used (if n = 1 then base else base ++ " (" ++ toString n ++ ")")
    · rw [if_pos hu]
      exact ih (n + 1)
    · rw [if_neg hu]
      by_cases hn : n = 1
      · rw [if_pos hn]; exact hb
      · rw [if_neg hn]
        exact string_append_ne_empty_left _ _
          (string_append_ne_empty_left _ _ (string_append_ne_empty_left _ _ hb))

theorem freshLabel_ne_empty (used : List String) (base : String) (hb : base ≠ "") :
    freshLabel used base ≠ "" :=
  freshLabelAux_ne_empty used base hb _ _

theorem vennLabeledSets_label_ne_empty :
    ∀ (lst : List VennSample) (used : List String), ∀ v ∈ vennLabeledSets lst used,
      v.label ≠ "" := by
  intro lst
  induction lst with
  | nil => intro used v hv; simp [vennLabeledSets] at hv
  | cons s rest ih =>
    intro used v hv
    simp only [vennLabeledSets] at hv
    rcases List.mem_cons.mp hv with rfl | hmem
    · show freshLabel used _ ≠ ""
      apply freshLabel_ne_empty
      by_cases ht : jsTrim s.name != ""
      · rw [if_pos ht]
        exact bne_iff_ne.mp ht
      · rw [if_neg ht]
        apply string_append_ne_empty_left
        decide
    · exact ih _ v hmem

theorem pairsOf_mem {α : Type} (l : List α) (pr : α × α) (h : pr ∈ pairsOf l) :
    pr.1 ∈ l ∧ pr.2 ∈ l := by
  induction l with
  | nil => simp [pairsOf] at h
  | cons x xs ih =>
    simp only [pairsOf, List.mem_append, List.mem_map] at h
    rcases h with ⟨y, hy, rfl⟩ | h
    · exact ⟨List.mem_cons_self _ _, List.mem_cons_of_mem _ hy⟩
    · rcases ih h with ⟨h1, h2⟩
      exact ⟨List.mem_cons_of_mem _ h1, List.mem_cons_of_mem _ h2⟩

/-- On the emitted entries of a valid selection the shape filter removes
nothing, because every label is non-empty. -/
theorem vennShapeFilter_id (ids : List ℕ) (samples : List VennSample) :
    vennShapeFilter
        (vennSingles (vennSelectedSets ids samples) ++ vennPairs (vennSelectedSets ids samples) ++
          vennTriple (vennSelectedSets ids samples)) =
      vennSingles (vennSelectedSets ids samples) ++ vennPairs (vennSelectedSets ids samples) ++
        vennTriple (vennSelectedSets ids samples) := by
  have hlab : ∀ v ∈ vennSelectedSets ids samples, v.label ≠ "" := by
    intro v hv
    exact vennLabeledSets_label_ne_empty _ _ v hv
  apply List.filter_eq_self.mpr
  intro d hd
  have hsets : ∀ s ∈ d.sets, s ≠ "" := by
    rcases List.mem_append.mp hd with hd2 | hd3
    · rcases List.mem_append.mp hd2 with hsingle | hpair
      · rcases List.mem_map.mp hsingle with ⟨p, hp, rfl⟩
        intro s hs
        rcases List.mem_singleton.mp hs with rfl
        exact hlab p hp
      · rcases List.mem_map.mp hpair with ⟨pr, hpr, rfl⟩
        rcases pairsOf_mem _ pr hpr with ⟨h1, h2⟩
        intro s hs
        rcases List.mem_cons.mp hs with rfl | hs2
        · exact hlab pr.1 h1
        · rcases List.mem_singleton.mp hs2 with rfl
          exact hlab pr.2 h2
    · rcases hsel : vennSelectedSets ids samples with _ | ⟨s1, rest1⟩
      · rw [hsel] at hd3
        simp [vennTriple] at hd3
      · rcases rest1 with _ | ⟨s2, rest2⟩
        · rw [hsel] at hd3
          simp [vennTriple] at hd3
        · rcases rest2 with _ | ⟨s3, rest3⟩
          · rw [hsel] at hd3
            simp [vennTriple] at hd3
          · rcases rest3 with _ | ⟨s4, rest4⟩
            · rw [hsel] at hd3
              simp only [vennTriple, List.mem_singleton] at hd3
              subst hd3
              intro s hs
              have hmem1 : s1 ∈ vennSelectedSets ids samples := by
                rw [hsel]; exact List.mem_cons_self _ _
              have hmem2 : s2 ∈ vennSelectedSets ids samples := by
                rw [hsel]; exact List.mem_cons_of_mem _ (List.mem_cons_self _ _)
              have hmem3 : s3 ∈ vennSelectedSets ids samples := by
                rw [hsel]
                exact List.mem_cons_of_mem _ (List.mem_cons_of_mem _ (List.mem_cons_self _ _))
              rcases List.mem_cons.mp hs with rfl | hs2
              · exact hlab s1 hmem1
              · rcases List.mem_cons.mp hs2 with rfl | hs3
                · exact hlab s2 hmem2
                · rcases List.mem_singleton.mp hs3 with rfl
                  exact hlab s3 hmem3
            · rw [hsel] at hd3
              simp [vennTriple] at hd3
  simp only [List.all_eq_true, bne_iff_ne]
  intro s hs
  exact hsets s hs

/-! ## Claim C3: the overlap sets -/

/-- C3 amended: for 2-3 selected samples every emitted pair (and, with
three sets, the triple) carries exactly the set intersection of its
member sets' accession lists — but the pair and triple entries are
emitted regardless of whether the intersection is empty: the output is
literally singles ++ pairs ++ triple with no emptiness pruning (the
claim's non-emptiness clause is refuted by `C3_counterexample`). -/
theorem C3_overlaps_exact_intersections (ids : List ℕ) (samples : List VennSample)
    (h2 : 2 ≤ ids.length) (h3 : ids.length ≤ 3) :
    (generateVennDiagramData ids samples).overlaps =
      vennSingles (vennSelectedSets ids samples) ++ vennPairs (vennSelectedSets ids samples) ++
        vennTriple (vennSelectedSets ids samples) ∧
    (∀ pr ∈ pairsOf (vennSelectedSets ids samples),
      vennPairEntry pr ∈ (generateVennDiagramData ids samples).overlaps ∧
      (vennPairEntry pr).sets = [pr.1.label, pr.2.label] ∧
      ∀ x, x ∈ (vennPairEntry pr).proteins ↔ x ∈ pr.1.proteins ∧ x ∈ pr.2.proteins) ∧
    (∀ s1 s2 s3, vennSelectedSets ids samples = [s1, s2, s3] →
      ∃ e ∈ (generateVennDiagramData ids samples).overlaps,
        e.sets = [s1.label, s2.label, s3.label] ∧
        ∀ x, x ∈ e.proteins ↔ x ∈ s1.proteins ∧ x ∈ s2.proteins ∧ x ∈ s3.proteins) := by
  have hguard : ¬ (ids.length < 2 ∨ 3 < ids.length) := by omega
  have hoverlaps : (generateVennDiagramData ids samples).overlaps =
      vennSingles (vennSelectedSets ids samples) ++ vennPairs (vennSelectedSets ids samples) ++
        vennTriple (vennSelectedSets ids samples) := by
    unfold generateVennDiagramData
    rw [if_neg hguard]
    exact vennShapeFilter_id ids samples
  refine ⟨hoverlaps, ?_, ?_⟩
  · intro pr hpr
    refine ⟨?_, rfl, ?_⟩
    · rw [hoverlaps]
      refine List.mem_append.mpr (Or.inl (List.mem_append.mpr (Or.inr ?_)))
      exact List.mem_map_of_mem _ hpr
    · intro x
      exact mem_setIntersect x _ _
  · intro s1 s2 s3 hsel
    refine ⟨{ sets := [s1.label, s2.label, s3.label],
              size := (setIntersect (setIntersect s1.proteins s2.proteins) s3.proteins).length,
              proteins := setIntersect (setIntersect s1.proteins s2.proteins) s3.proteins },
            ?_, rfl, ?_⟩
    · rw [hoverlaps, hsel]
      refine List.mem_append.mpr (Or.inr ?_)
      simp [vennTriple]
    · intro x
      rw [mem_setIntersect, mem_setIntersect]
      tauto

/-- C3 witness: the pair entry of two concrete overlapping samples is the
exact intersection. -/
def c3Rec (acc : String) : FinalRecord :=
  { proteinAccession := acc, description := "", averageAbundance := 0, totalPeptides := 0,
    uniquePeptidesCount := none, proteinsInGroup := 0, isUniqueGroup := false,
    uniquePeptidesList := "", pdScore := none }

def c3Sample1 : VennSample := { id := 1, name := "S1", analysisResults := [c3Rec "A"] }

def c3Sample2 : VennSample := { id := 2, name := "S2", analysisResults := [c3Rec "B"] }

theorem C3_overlaps_exact_intersections_witness :
    2 ≤ ([1, 2] : List ℕ).length ∧
    (generateVennDiagramData [1, 2] [c3Sample1, c3Sample2]).overlaps =
      vennSingles (vennSelectedSets [1, 2] [c3Sample1, c3Sample2]) ++
        vennPairs (vennSelectedSets [1, 2] [c3Sample1, c3Sample2]) ++
        vennTriple (vennSelectedSets [1, 2] [c3Sample1, c3Sample2]) :=
  ⟨by decide,
   (C3_overlaps_exact_intersections [1, 2] [c3Sample1, c3Sample2] (by decide) (by decide)).1⟩

/-- C3 counterexample: two disjoint samples still produce their pair
entry, with an empty accession set — the claim says empty intersections
are not included in the output. -/
theorem C3_counterexample :
    ({ sets := ["S1", "S2"], size := 0, proteins := [] } : VennEntry) ∈
      (generateVennDiagramData [1, 2] [c3Sample1, c3Sample2]).overlaps := by
  decide

/-- C1 witness: the classification law applied to the concrete scenario
run, whose one record satisfies both conditions. -/
theorem C1_classification_conjunction_witness :
    adaptPeaksStudioData c2Peptides c2Proteins = .ok c2Result ∧
    (pathogenicPattern "P1-A123B" = true ∧
     strContains "xx PATHOGENIC_VARIANT yy" "PATHOGENIC_VARIANT" = true) := by
  refine ⟨c2_eval, ?_⟩
  exact (C1_classification_conjunction.1 c2Peptides c2Proteins c2Result c2_eval).1
    { proteinAccession := "P1-A123B", description := "xx PATHOGENIC_VARIANT yy",
      averageAbundance := 500000, totalPeptides := 2, uniquePeptidesCount := some 1,
      proteinsInGroup := 1, isUniqueGroup := true, uniquePeptidesList := "PEPA",
      pdScore := none }
    (List.mem_singleton.mpr rfl)

/-! ## Claim C8: missing-column reporting -/

/-- C8 counterexample: a Proteome Discoverer peptides table missing both
required peptide columns produces an error naming only `Sequence`; the
equally missing `Master Protein Accessions` is not mentioned, so the
message does not enumerate every missing required column. -/
def c8Peptides : List Row := [[("Foo", "1")]]

theorem C8_counterexample :
    adaptProteomeDiscovererData c8Peptides c5Proteins =
      .error "Missing 'Sequence' header in Peptides File for Proteome Discoverer. Searched for normalized 'sequence'. Actual normalized headers: [foo]" ∧
    (findExactHeader (firstRowKeys c8Peptides) "Master Protein Accessions").isNone = true ∧
    strContains
      "Missing 'Sequence' header in Peptides File for Proteome Discoverer. Searched for normalized 'sequence'. Actual normalized headers: [foo]"
      "Master Protein Accessions" = false := by
  decide

/-- C8 amended: the Peaks Studio adapter does enumerate every missing
required column, but per table and with the peptides table taking
precedence; the Proteome Discoverer adapter checks its required columns
in a fixed order and reports only the first missing one (naming that
column in the message). -/
theorem C8_missing_column_reporting :
    (∀ pep prot, missingHeaders requiredPeptidesHeaders pep ≠ [] →
      adaptPeaksStudioData pep prot =
        .error ("Missing required headers in Peptides File for Peaks Studio: " ++
          joinSep ", " (missingHeaders requiredPeptidesHeaders pep)) ∧
      ∀ h ∈ missingHeaders requiredPeptidesHeaders pep,
        strContains ("Missing required headers in Peptides File for Peaks Studio: " ++
          joinSep ", " (missingHeaders requiredPeptidesHeaders pep)) h = true) ∧
    (∀ pep prot, missingHeaders requiredPeptidesHeaders pep = [] →
      missingHeaders requiredProteinsHeaders prot ≠ [] →
      adaptPeaksStudioData pep prot =
        .error ("Missing required headers in Proteins File for Peaks Studio: " ++
          joinSep ", " (missingHeaders requiredProteinsHeaders prot)) ∧
      ∀ h ∈ missingHeaders requiredProteinsHeaders prot,
        strContains ("Missing required headers in Proteins File for Peaks Studio: " ++
          joinSep ", " (missingHeaders requiredProteinsHeaders prot)) h = true) ∧
    (∀ pep prot raw msg, pep ≠ [] → prot ≠ [] →
      pdFirstMissing pep prot = some (raw, msg) →
      adaptProteomeDiscovererData pep prot = .error msg ∧ strContains msg raw = true) := by
  refine ⟨?_, ?_, ?_⟩
  · intro pep prot hne
    constructor
    · unfold adaptPeaksStudioData
      rw [if_pos hne]
    · intro h hmem
      exact strContains_append_right _ _ _ (strContains_joinSep _ _ _ hmem)
  · intro pep prot heq hne
    constructor
    · unfold adaptPeaksStudioData
      rw [if_neg (by rw [heq]; exact fun hc => hc rfl), if_pos hne]
    · intro h hmem
      exact strContains_append_right _ _ _ (strContains_joinSep _ _ _ hmem)
  · intro pep prot raw msg hpep hprot hm
    have hpe : ¬ (pep.isEmpty = true) := by
      intro hc
      exact hpep (List.isEmpty_iff.mp hc)
    have hpr : ¬ (prot.isEmpty = true) := by
      intro hc
      exact hprot (List.isEmpty_iff.mp hc)
    constructor
    · unfold adaptProteomeDiscovererData
      rw [if_neg hpe, if_neg hpr, hm]
    · simp only [pdFirstMissing] at hm
      split_ifs at hm <;>
        simp only [Option.some.injEq, Prod.mk.injEq] at hm <;>
        rcases hm with ⟨hraw, hmsg⟩ <;>
        rw [← hraw, ← hmsg] <;>
        exact strContains_append_left _ _ _ (by decide)

/-- C8 witness: both reporting behaviours applied at concrete inputs —
the Peaks adapter on an empty peptides table names every required
peptides column; the PD adapter on the two-columns-missing table reports
the first missing column by name. -/
theorem C8_missing_column_reporting_witness :
    (adaptPeaksStudioData [] [] =
      .error ("Missing required headers in Peptides File for Peaks Studio: " ++
        joinSep ", " (missingHeaders requiredPeptidesHeaders [])) ∧
     strContains ("Missing required headers in Peptides File for Peaks Studio: " ++
        joinSep ", " (missingHeaders requiredPeptidesHeaders [])) "Unique" = true) ∧
    (adaptProteomeDiscovererData c8Peptides c5Proteins =
      .error "Missing 'Sequence' header in Peptides File for Proteome Discoverer. Searched for normalized 'sequence'. Actual normalized headers: [foo]" ∧
     strContains
       "Missing 'Sequence' header in Peptides File for Proteome Discoverer. Searched for normalized 'sequence'. Actual normalized headers: [foo]"
       "Sequence" = true) := by
  constructor
  · have h := C8_missing_column_reporting.1 [] [] (by decide)
    exact ⟨h.1, h.2 "Unique" (by decide)⟩
  · exact C8_missing_column_reporting.2.2 c8Peptides c5Proteins "Sequence"
      "Missing 'Sequence' header in Peptides File for Proteome Discoverer. Searched for normalized 'sequence'. Actual normalized headers: [foo]"
      (by decide) (by decide) (by decide)

/-! ## Lemmas for the export round trip (claim C9) -/

/-- A cell or header string that survives the parser unchanged: none of
the delimiter-relevant characters, and no surrounding whitespace (the
`jsTrim` fixed-point condition). -/
def plainChar (c : Char) : Bool :=
  !(c = ',' || c = '"' || c = ';' || c = '\t' || c = '\n' || c = '\r')

def plainStr (s : String) : Bool := s.data.all plainChar && (jsTrim s == s)

/-- `joinSep` at the character level. -/
def joinC (sep : List Char) : List (List Char) → List Char
  | [] => []
  | [p] => p
  | p :: rest => p ++ sep ++ joinC sep rest

theorem joinSep_data (sep : String) :
    ∀ l : List String, (joinSep sep l).data = joinC sep.data (l.map (fun s => s.data)) := by
  intro l
  induction l with
  | nil => rfl
  | cons s rest ih =>
    cases rest with
    | nil => rfl
    | cons s2 rest2 =>
      show (s ++ sep ++ joinSep sep (s2 :: rest2)).data = _
      rw [String.data_append, String.data_append, ih]
      rfl

theorem mem_joinC (sep : List Char) :
    ∀ parts, ∀ c ∈ joinC sep parts, c ∈ sep ∨ ∃ p ∈ parts, c ∈ p := by
  intro parts
  induction parts with
  | nil => intro c hc; simp [joinC] at hc
  | cons p rest ih =>
    cases rest with
    | nil =>
      intro c hc
      exact Or.inr ⟨p, List.mem_singleton.mpr rfl, hc⟩
    | cons q rest2 =>
      intro c hc
      show c ∈ sep ∨ ∃ x ∈ p :: q :: rest2, c ∈ x
      have hc2 : c ∈ (p ++ sep) ++ joinC sep (q :: rest2) := hc
      rcases List.mem_append.mp hc2 with h | h
      · rcases List.mem_append.mp h with h2 | h2
        · exact Or.inr ⟨p, List.mem_cons_self _ _, h2⟩
        · exact Or.inl h2
      · rcases ih c h with h2 | ⟨x, hx, hcx⟩
        · exact Or.inl h2
        · exact Or.inr ⟨x, List.mem_cons_of_mem _ hx, hcx⟩

theorem splitOnChar_no_sep (d : Char) (p : List Char) (hp : ¬ d ∈ p) :
    splitOnChar d p = [p] := by
  induction p with
  | nil => rfl
  | cons c cs ih =>
    have hc : ¬ (c = d) := fun h => hp (h ▸ List.mem_cons_self _ _)
    have hcs : ¬ d ∈ cs := fun h => hp (List.mem_cons_of_mem _ h)
    simp only [splitOnChar, if_neg hc, ih hcs, consHead]

theorem splitOnChar_sep_cons (d : Char) (t : List Char) :
    ∀ p : List Char, ¬ d ∈ p → splitOnChar d (p ++ d :: t) = p :: splitOnChar d t := by
  intro p
  induction p with
  | nil =>
    intro _
    simp [splitOnChar]
  | cons c cs ih =>
    intro hp
    have hc : ¬ (c = d) := fun h => hp (h ▸ List.mem_cons_self _ _)
    have hcs : ¬ d ∈ cs := fun h => hp (List.mem_cons_of_mem _ h)
    show splitOnChar d (c :: (cs ++ d :: t)) = (c :: cs) :: splitOnChar d t
    rw [splitOnChar, if_neg hc, ih hcs]
    rfl

theorem splitOnChar_joinC (d : Char) :
    ∀ parts : List (List Char), parts ≠ [] → (∀ p ∈ parts, ¬ d ∈ p) →
      splitOnChar d (joinC [d] parts) = parts := by
  intro parts
  induction parts with
  | nil => intro h _; exact absurd rfl h
  | cons p rest ih =>
    intro _ hall
    cases rest with
    | nil => exact splitOnChar_no_sep d p (hall p (List.mem_singleton.mpr rfl))
    | cons q rest2 =>
      show splitOnChar d ((p ++ [d]) ++ joinC [d] (q :: rest2)) = _
      rw [List.append_assoc, List.singleton_append,
        splitOnChar_sep_cons d _ p (hall p (List.mem_cons_self _ _)),
        ih (by simp) (fun x hx => hall x (List.mem_cons_of_mem _ hx))]

theorem splitLines_nl (l : List Char) : splitLines ('\n' :: l) = [] :: splitLines l := by
  cases l with
  | nil => rfl
  | cons c2 rest => simp [splitLines]

theorem splitLines_cons_of_ne (c : Char) (l : List Char) (hc1 : ¬ (c = '\n'))
    (hc2 : ¬ (c = '\r')) : splitLines (c :: l) = consHead c (splitLines l) := by
  cases l with
  | nil => simp [splitLines, consHead, hc1]
  | cons c2 rest =>
    rw [splitLines, if_neg hc1, if_neg (fun h => hc2 h.1)]

theorem splitLines_no_nl (p : List Char) (h1 : ¬ '\n' ∈ p) (h2 : ¬ '\r' ∈ p) :
    splitLines p = [p] := by
  induction p with
  | nil => rfl
  | cons c cs ih =>
    have hc1 : ¬ (c = '\n') := fun h => h1 (h ▸ List.mem_cons_self _ _)
    have hc2 : ¬ (c = '\r') := fun h => h2 (h ▸ List.mem_cons_self _ _)
    rw [splitLines_cons_of_ne c cs hc1 hc2,
      ih (fun h => h1 (List.mem_cons_of_mem _ h)) (fun h => h2 (List.mem_cons_of_mem _ h))]
    rfl

theorem splitLines_nl_concat (t : List Char) :
    ∀ p : List Char, ¬ '\n' ∈ p → ¬ '\r' ∈ p →
      splitLines (p ++ '\n' :: t) = p :: splitLines t := by
  intro p
  induction p with
  | nil =>
    intro _ _
    exact splitLines_nl t
  | cons c cs ih =>
    intro h1 h2
    have hc1 : ¬ (c = '\n') := fun h => h1 (h ▸ List.mem_cons_self _ _)
    have hc2 : ¬ (c = '\r') := fun h => h2 (h ▸ List.mem_cons_self _ _)
    show splitLines (c :: (cs ++ '\n' :: t)) = (c :: cs) :: splitLines t
    rw [splitLines_cons_of_ne c _ hc1 hc2,
      ih (fun h => h1 (List.mem_cons_of_mem _ h)) (fun h => h2 (List.mem_cons_of_mem _ h))]
    rfl

theorem splitLines_joinC :
    ∀ parts : List (List Char), parts ≠ [] →
      (∀ p ∈ parts, ¬ '\n' ∈ p ∧ ¬ '\r' ∈ p) →
      splitLines (joinC ['\n'] parts) = parts := by
  intro parts
  induction parts with
  | nil => intro h _; exact absurd rfl h
  | cons p rest ih =>
    intro _ hall
    cases rest with
    | nil =>
      exact splitLines_no_nl p (hall p (List.mem_singleton.mpr rfl)).1
        (hall p (List.mem_singleton.mpr rfl)).2
    | cons q rest2 =>
      show splitLines ((p ++ ['\n']) ++ joinC ['\n'] (q :: rest2)) = _
      rw [List.append_assoc, List.singleton_append,
        splitLines_nl_concat _ p (hall p (List.mem_cons_self _ _)).1
          (hall p (List.mem_cons_self _ _)).2,
        ih (by simp) (fun x hx => hall x (List.mem_cons_of_mem _ hx))]

theorem mem_dropWhile_of_mem {α : Type} (p : α → Bool) (c : α) :
    ∀ l : List α, c ∈ l → p c = false → c ∈ l.dropWhile p := by
  intro l
  induction l with
  | nil => intro h _; simp at h
  | cons x xs ih =>
    intro hc hp
    rcases hpx : p x with _ | _
    · rw [List.dropWhile_cons_of_neg (by rw [hpx]; exact Bool.false_ne_true)]
      exact hc
    · rw [List.dropWhile_cons_of_pos hpx]
      rcases List.mem_cons.mp hc with rfl | hmem
      · rw [hp] at hpx
        cases hpx
      · exact ih hmem hp

theorem mem_jsTrimL (c : Char) (l : List Char) (hc : c ∈ l) (hws : isJsWS c = false) :
    c ∈ jsTrimL l := by
  unfold jsTrimL
  rw [List.mem_reverse]
  apply mem_dropWhile_of_mem _ _ _ _ hws
  rw [List.mem_reverse]
  exact mem_dropWhile_of_mem _ _ _ hc hws

theorem jsTrimL_ne_nil_of_comma (l : List Char) (hc : ',' ∈ l) : jsTrimL l ≠ [] := by
  intro h
  have := mem_jsTrimL ',' l hc (by decide)
  rw [h] at this
  simp at this

theorem plainStr_chars (s : String) (h : plainStr s = true) :
    ∀ c ∈ s.data, ¬ (c = ',') ∧ ¬ (c = '"') ∧ ¬ (c = ';') ∧ ¬ (c = '\t') ∧
      ¬ (c = '\n') ∧ ¬ (c = '\r') := by
  intro c hc
  rw [plainStr, Bool.and_eq_true] at h
  have h2 := List.all_eq_true.mp h.1 c hc
  rw [plainChar] at h2
  simp only [Bool.not_eq_eq_eq_not, Bool.not_true, Bool.or_eq_false_iff,
    decide_eq_false_iff_not] at h2
  exact ⟨h2.1.1.1.1.1, h2.1.1.1.1.2, h2.1.1.1.2, h2.1.1.2, h2.1.2, h2.2⟩

theorem plainStr_trim (s : String) (h : plainStr s = true) : jsTrimL s.data = s.data := by
  rw [plainStr, Bool.and_eq_true] at h
  have h2 : jsTrim s = s := beq_iff_eq.mp h.2
  exact congrArg String.data h2

theorem stripQuotesL_plain (s : String) (h : plainStr s = true) :
    stripQuotesL s.data = s.data := by
  apply List.filter_eq_self.mpr
  intro c hc
  have := (plainStr_chars s h c hc).2.1
  simpa using this

theorem commasToDotsL_plain (s : String) (h : plainStr s = true) :
    commasToDotsL s.data = s.data := by
  unfold commasToDotsL
  have hpt : ∀ c ∈ s.data, (fun c => if c = ',' then '.' else c) c = id c := by
    intro c hc
    exact if_neg (plainStr_chars s h c hc).1
  rw [List.map_congr_left hpt, List.map_id]

theorem headerCell_plain (s : String) (h : plainStr s = true) : headerCell s.data = s := by
  unfold headerCell
  rw [plainStr_trim s h, stripQuotesL_plain s h]

theorem dataCell_plain (s : String) (h : plainStr s = true) : dataCell s.data = s := by
  unfold dataCell
  rw [plainStr_trim s h, stripQuotesL_plain s h, commasToDotsL_plain s h]

/-- The joined cells of one exported line: no line break, no tab, no
semicolon, and (with at least two cells) at least one comma. -/
theorem joined_line_facts (cells : List String) (hcells : ∀ s ∈ cells, plainStr s = true)
    (h2 : 2 ≤ cells.length) :
    ¬ '\n' ∈ (joinSep "," cells).data ∧ ¬ '\r' ∈ (joinSep "," cells).data ∧
    ¬ '\t' ∈ (joinSep "," cells).data ∧ ¬ ';' ∈ (joinSep "," cells).data ∧
    ',' ∈ (joinSep "," cells).data := by
  have hchar : ∀ c ∈ (joinSep "," cells).data, c = ',' ∨ ∃ s ∈ cells, c ∈ s.data := by
    intro c hc
    rw [joinSep_data] at hc
    rcases mem_joinC _ _ c hc with h | ⟨p, hp, hcp⟩
    · left
      rcases List.mem_singleton.mp h with rfl
      rfl
    · right
      rcases List.mem_map.mp hp with ⟨s, hs, rfl⟩
      exact ⟨s, hs, hcp⟩
  refine ⟨?_, ?_, ?_, ?_, ?_⟩
  · intro hmem
    rcases hchar _ hmem with h | ⟨s, hs, hcs⟩
    · cases h
    · exact (plainStr_chars s (hcells s hs) _ hcs).2.2.2.2.1 rfl
  · intro hmem
    rcases hchar _ hmem with h | ⟨s, hs, hcs⟩
    · cases h
    · exact (plainStr_chars s (hcells s hs) _ hcs).2.2.2.2.2 rfl
  · intro hmem
    rcases hchar _ hmem with h | ⟨s, hs, hcs⟩
    · cases h
    · exact (plainStr_chars s (hcells s hs) _ hcs).2.2.2.1 rfl
  · intro hmem
    rcases hchar _ hmem with h | ⟨s, hs, hcs⟩
    · cases h
    · exact (plainStr_chars s (hcells s hs) _ hcs).2.2.1 rfl
  · rcases cells with _ | ⟨a, _ | ⟨b, rest⟩⟩
    · simp at h2
    · simp at h2
    · rw [joinSep_data]
      show ',' ∈ (a.data ++ ",".data) ++ joinC ",".data ((b :: rest).map (fun s => s.data))
      refine List.mem_append.mpr (Or.inl (List.mem_append.mpr (Or.inr ?_)))
      exact List.mem_singleton.mpr rfl

theorem detectDelimiter_comma (l : List Char) (h1 : ¬ '\t' ∈ l) (h2 : ¬ ';' ∈ l) :
    detectDelimiter l = ',' := by
  unfold detectDelimiter
  rw [if_neg (by simpa using h1), if_neg (by simpa using h2)]

/-- Row-wise re-parsing of the exported data lines: each plain rendered
row splits back into its own cells. -/
theorem parse_rows_plain (headers : List String) :
    ∀ rows : List (List Cell),
      (∀ row ∈ rows, row.length = headers.length ∧
        ∀ c ∈ row, plainStr (renderCell c) = true) →
      2 ≤ headers.length →
      rows.filterMap ((fun line =>
          if (splitOnChar ',' line).length = headers.length then
            some (headers.zip ((splitOnChar ',' line).map (fun v => dataCell v)))
          else none) ∘ ((fun s => s.data) ∘ (fun r => joinSep "," (r.map renderCell)))) =
      rows.map (fun row => headers.zip (row.map renderCell)) := by
  intro rows
  induction rows with
  | nil =>
    intro _ _
    rfl
  | cons r rest ih =>
    intro hrows hlen2
    have hr := hrows r (List.mem_cons_self _ _)
    have hrsplit : splitOnChar ',' ((joinSep "," (r.map renderCell)).data) =
        (r.map renderCell).map (fun s => s.data) := by
      rw [joinSep_data]
      apply splitOnChar_joinC
      · apply List.length_pos.mp
        rw [List.length_map, List.length_map, hr.1]
        omega
      · intro p hp
        rcases List.mem_map.mp hp with ⟨s, hs, rfl⟩
        rcases List.mem_map.mp hs with ⟨c, hc, rfl⟩
        intro hmem
        exact (plainStr_chars _ (hr.2 c hc) _ hmem).1 rfl
    have hstep : ((fun line =>
        if (splitOnChar ',' line).length = headers.length then
          some (headers.zip ((splitOnChar ',' line).map (fun v => dataCell v)))
        else none) ∘ ((fun s => s.data) ∘ (fun r => joinSep "," (r.map renderCell)))) r =
        some (headers.zip (r.map renderCell)) := by
      show (if (splitOnChar ',' ((joinSep "," (r.map renderCell)).data)).length =
            headers.length then
          some (headers.zip ((splitOnChar ','
            ((joinSep "," (r.map renderCell)).data)).map (fun v => dataCell v)))
        else none) = some (headers.zip (r.map renderCell))
      rw [hrsplit, if_pos (by rw [List.length_map, List.length_map, hr.1])]
      congr 2
      rw [List.map_map, List.map_map]
      apply List.map_congr_left
      intro c hc
      exact dataCell_plain _ (hr.2 c hc)
    rw [List.filterMap_cons, hstep,
      ih (fun row hrow => hrows row (List.mem_cons_of_mem _ hrow)) hlen2, List.map_cons]

/-! ## Claim C9: export/parse round trip -/

/-- C9 amended: the round trip holds only for datasets whose headers and
rendered cells are plain (no delimiter, quote, semicolon, tab or line
break, and no surrounding whitespace — then export quoting is the
identity); under those conditions re-parsing the export reproduces every
row (in particular the accession column and the per-sample abundance
strings, which are `toFixed(2)` renderings) exactly.  In general the
parser splits rows on the raw delimiter without honouring export quoting,
so a field containing the delimiter breaks the round trip
(`C9_counterexample`). -/
theorem C9_roundtrip_plain (headers : List String) (rows : List (List Cell)) (csv : String)
    (hexp : exportComparativeToCsv headers rows = some csv)
    (hlen2 : 2 ≤ headers.length)
    (hheaders : ∀ h ∈ headers, plainStr h = true)
    (hrows : ∀ row ∈ rows, row.length = headers.length ∧
      ∀ c ∈ row, plainStr (renderCell c) = true) :
    parseCSV csv = rows.map (fun row => headers.zip (row.map renderCell)) := by
  unfold exportComparativeToCsv at hexp
  by_cases hre : rows.isEmpty
  · rw [if_pos hre] at hexp
    cases hexp
  rw [if_neg hre] at hexp
  have hcsv := (Option.some.inj hexp).symm
  subst hcsv
  -- the split-into-lines step returns exactly the header line and the data lines
  have hlinefacts : ∀ r ∈ rows, ¬ '\n' ∈ (joinSep "," (r.map renderCell)).data ∧
      ¬ '\r' ∈ (joinSep "," (r.map renderCell)).data ∧
      ¬ '\t' ∈ (joinSep "," (r.map renderCell)).data ∧
      ¬ ';' ∈ (joinSep "," (r.map renderCell)).data ∧
      ',' ∈ (joinSep "," (r.map renderCell)).data := by
    intro r hr
    apply joined_line_facts
    · intro s hs
      rcases List.mem_map.mp hs with ⟨c, hc, rfl⟩
      exact (hrows r hr).2 c hc
    · rw [List.length_map, (hrows r hr).1]
      exact hlen2
  have hheadfacts := joined_line_facts headers hheaders hlen2
  have hsplit : splitLines ((joinSep "\n"
      (joinSep "," headers :: rows.map (fun r => joinSep "," (r.map renderCell)))).data) =
      (joinSep "," headers).data ::
        (rows.map (fun r => joinSep "," (r.map renderCell))).map (fun s => s.data) := by
    rw [joinSep_data]
    rw [show ("\n" : String).data = ['\n'] from rfl]
    rw [show ((joinSep "," headers :: rows.map (fun r => joinSep "," (r.map renderCell))).map
        (fun s => s.data)) = (joinSep "," headers).data ::
        (rows.map (fun r => joinSep "," (r.map renderCell))).map (fun s => s.data) from rfl]
    apply splitLines_joinC
    · intro h
      cases h
    · intro p hp
      rcases List.mem_cons.mp hp with rfl | hp2
      · exact ⟨hheadfacts.1, hheadfacts.2.1⟩
      · rcases List.mem_map.mp hp2 with ⟨line, hline, rfl⟩
        rcases List.mem_map.mp hline with ⟨r, hr, rfl⟩
        exact ⟨(hlinefacts r hr).1, (hlinefacts r hr).2.1⟩
  have hfilter : (splitLines ((joinSep "\n"
      (joinSep "," headers :: rows.map (fun r => joinSep "," (r.map renderCell)))).data)).filter
        (fun r => jsTrimL r ≠ []) =
      (joinSep "," headers).data ::
        (rows.map (fun r => joinSep "," (r.map renderCell))).map (fun s => s.data) := by
    rw [hsplit]
    apply List.filter_eq_self.mpr
    intro a ha
    rcases List.mem_cons.mp ha with rfl | ha2
    · simpa using jsTrimL_ne_nil_of_comma _ hheadfacts.2.2.2.2
    · rcases List.mem_map.mp ha2 with ⟨line, hline, rfl⟩
      rcases List.mem_map.mp hline with ⟨r, hr, rfl⟩
      simpa using jsTrimL_ne_nil_of_comma _ (hlinefacts r hr).2.2.2.2
  have hdelim : detectDelimiter ((joinSep "," headers).data) = ',' :=
    detectDelimiter_comma _ hheadfacts.2.2.1 hheadfacts.2.2.2.1
  have hheadersplit : splitOnChar ',' ((joinSep "," headers).data) =
      headers.map (fun s => s.data) := by
    rw [joinSep_data]
    apply splitOnChar_joinC
    · apply List.length_pos.mp
      rw [List.length_map]
      omega
    · intro p hp
      rcases List.mem_map.mp hp with ⟨s, hs, rfl⟩
      intro hmem
      exact (plainStr_chars s (hheaders s hs) _ hmem).1 rfl
  have hheadersparsed : (splitOnChar ',' ((joinSep "," headers).data)).map headerCell =
      headers := by
    rw [hheadersplit, List.map_map]
    have : ∀ s ∈ headers, (headerCell ∘ fun s => s.data) s = id s := by
      intro s hs
      exact headerCell_plain s (hheaders s hs)
    rw [List.map_congr_left this, List.map_id]
  -- now compute the parser
  unfold parseCSV
  rw [hfilter]
  show ((rows.map (fun r => joinSep "," (r.map renderCell))).map (fun s => s.data)).filterMap
      (fun line =>
        if (splitOnChar (detectDelimiter ((joinSep "," headers).data)) line).length =
            ((splitOnChar (detectDelimiter ((joinSep "," headers).data))
              ((joinSep "," headers).data)).map headerCell).length then
          some (((splitOnChar (detectDelimiter ((joinSep "," headers).data))
              ((joinSep "," headers).data)).map headerCell).zip
            ((splitOnChar (detectDelimiter ((joinSep "," headers).data)) line).map
              (fun v => dataCell v)))
        else none) =
    rows.map (fun row => headers.zip (row.map renderCell))
  rw [hdelim, hheadersparsed, List.map_map, List.filterMap_map]
  exact parse_rows_plain headers rows hrows hlen2

/-- C9 witness: a plain two-column dataset exports and re-parses to
exactly its own rows. -/
theorem C9_roundtrip_plain_witness :
    exportComparativeToCsv ["Protein Accession", "Description"]
        [[Cell.str "ACC1", Cell.str "desc"]] =
      some "Protein Accession,Description\nACC1,desc" ∧
    parseCSV "Protein Accession,Description\nACC1,desc" =
      [[("Protein Accession", "ACC1"), ("Description", "desc")]] := by
  refine ⟨by decide, ?_⟩
  have h := C9_roundtrip_plain ["Protein Accession", "Description"]
    [[Cell.str "ACC1", Cell.str "desc"]] "Protein Accession,Description\nACC1,desc"
    (by decide) (by decide) (by decide) (by decide)
  exact h.trans (by decide)

/-- C9 counterexample: a description containing the delimiter is
quote-wrapped on export, but the parser splits on every raw comma, so the
row has one cell too many and is dropped: the re-parse loses the
accession `ACC1` entirely, refuting the unconditional round-trip claim. -/
theorem C9_counterexample :
    exportComparativeToCsv ["Protein Accession", "Description"]
        [[Cell.str "ACC1", Cell.str "a,b"]] =
      some "Protein Accession,Description\nACC1,\"a,b\"" ∧
    parseCSV "Protein Accession,Description\nACC1,\"a,b\"" = [] := by
  decide

end BioApp